import Mathlib

/-!
Verification development for the dm-crypt sector conversion pipeline
(drivers/md/dm-crypt.c).

The definitions below are a shallow embedding of the C source: machine
integers become `Nat` with explicit reductions modulo `2^32` / `2^64`
where the C type wraps, byte buffers become `List Nat` (each entry a
byte value), and the crypto engine, hash functions and the random
source are passed in as explicit oracle functions so that the
control-flow of the C code can be reproduced exactly.  Errno values
are the numeric Linux constants; a failing C call returning `-EFOO`
is modelled as the integer `-eFoo`.
-/

namespace DmCrypt

/-- Linux errno constant EBUSY (16). -/
def eBusy : Int := 16

/-- Linux errno constant EINPROGRESS (115). -/
def eInProgress : Int := 115

/-- Linux errno constant EBADMSG (74). -/
def eBadMsg : Int := 74

/-- Linux errno constant EIO (5). -/
def eIoError : Int := 5

/-- Linux errno constant EINVAL (22). -/
def eInval : Int := 22

/-- Linux errno constant EAGAIN (11). -/
def eAgain : Int := 11

/-- Linux errno constant ENOMEM (12). -/
def eNoMem : Int := 12

/-- Value 2^32, the modulus of the C type u32. -/
def U32 : Nat := 2 ^ 32

/-- Value 2^64, the modulus of the C type u64. -/
def U64 : Nat := 2 ^ 64

/-- SECTOR_SHIFT from the kernel block layer: sectors are 512 = 2^9 bytes. -/
def SECTOR_SHIFT : Nat := 9

/-- Little-endian byte encoding of a value in `len` bytes, least
significant byte first, as produced by a C `cpu_to_le32`/`cpu_to_le64`
store into a byte buffer. -/
def leBytes : Nat → Nat → List Nat
  | 0, _ => []
  | len + 1, v => v % 256 :: leBytes len (v / 256)

/-- Big-endian byte encoding of a value in `len` bytes, most significant
byte first, as produced by a C `cpu_to_be64` store. -/
def beBytes (len v : Nat) : List Nat := (leBytes len v).reverse

/-- Model of a C store of `bytes` into buffer `buf` starting at byte
offset `off`: bytes outside the stored window are left unchanged. -/
def storeBytes (buf : List Nat) (off : Nat) (bytes : List Nat) : List Nat :=
  buf.take off ++ bytes ++ buf.drop (off + bytes.length)

/-- Bytewise xor of two buffers, as computed by `crypto_xor_cpy`
(the result has the length of the shorter buffer). -/
def xorBytes (a b : List Nat) : List Nat := List.zipWith (fun x y => x ^^^ y) a b

/-- The nine interchangeable IV generation modes of dm-crypt
(`crypt_iv_plain_ops` … `crypt_iv_random_ops`). -/
inductive IvMode
  | plain
  | plain64
  | plain64be
  | essiv
  | benbi
  | null
  | lmk
  | tcw
  | random
deriving DecidableEq, Repr

/-- The fields of `struct crypt_config` that the sector conversion
pipeline reads.  `sector_size_pos` records the constructor-established
invariant that the configured sector size is a power of two between 512
and 4096 bytes (only positivity is needed below). -/
structure crypt_config where
  sector_size : Nat
  sector_size_pos : 0 < sector_size
  iv_size : Nat
  iv_offset : Nat
  start : Nat
  key_size : Nat
  key_parts : Nat
  tfms_count : Nat
  integrity_aead : Bool
  mode_diskcipher : Bool
  integrity_iv_size : Nat
  integrity_tag_size : Nat
  on_disk_tag_size : Nat
  has_iv_gen : Bool
  has_iv_post : Bool

/-- Variant-specific IV generator state (`union iv_gen_private`):
the benbi shift constant, the optional lmk seed, and the tcw seed and
whitening buffers. -/
structure iv_gen_state where
  benbi_shift : Nat
  lmk_seed : Option (List Nat)
  tcw_iv_seed : List Nat
  tcw_whitening : List Nat

/-- External deterministic primitives used by the IV generators, plus
the stream of the kernel random source: the ESSIV block cipher
(already keyed with the hashed volume key), the MD5 partial-state
export used by lmk, and the bytes `get_random_bytes` would produce.
Passing them explicitly lets the theorems distinguish what depends on
the random source from what does not. -/
structure IvGenEnv where
  essiv_encrypt : List Nat → List Nat
  lmk_hash : List Nat → List Nat
  rand : List Nat

/-- Model of `crypt_iv_plain_gen`: zero the `iv_size`-byte buffer, then
store the sector number truncated to 32 bits little-endian at offset 0. -/
def crypt_iv_plain_gen (cc : crypt_config) (iv : List Nat) (s : Nat) : List Nat :=
  storeBytes (storeBytes iv 0 (List.replicate cc.iv_size 0)) 0 (leBytes 4 (s % U32))

/-- Model of `crypt_iv_plain64_gen`: zero the buffer, then store the
64-bit sector number little-endian at offset 0. -/
def crypt_iv_plain64_gen (cc : crypt_config) (iv : List Nat) (s : Nat) : List Nat :=
  storeBytes (storeBytes iv 0 (List.replicate cc.iv_size 0)) 0 (leBytes 8 (s % U64))

/-- Model of `crypt_iv_plain64be_gen`: zero the buffer, then store the
64-bit sector number big-endian in the last 8 bytes. -/
def crypt_iv_plain64be_gen (cc : crypt_config) (iv : List Nat) (s : Nat) : List Nat :=
  storeBytes (storeBytes iv 0 (List.replicate cc.iv_size 0)) (cc.iv_size - 8)
    (beBytes 8 (s % U64))

/-- Model of `crypt_iv_essiv_gen`: zero the buffer, store the 64-bit
sector number little-endian, then encrypt the buffer in place with the
salt-keyed ESSIV cipher. -/
def crypt_iv_essiv_gen (cc : crypt_config) (env : IvGenEnv) (iv : List Nat) (s : Nat) :
    List Nat :=
  env.essiv_encrypt
    (storeBytes (storeBytes iv 0 (List.replicate cc.iv_size 0)) 0 (leBytes 8 (s % U64)))

/-- Model of `crypt_iv_benbi_gen`: zero all but the last 8 bytes, then
store `(sector << shift) + 1` (computed in u64) big-endian in the last
8 bytes. -/
def crypt_iv_benbi_gen (cc : crypt_config) (st : iv_gen_state) (iv : List Nat) (s : Nat) :
    List Nat :=
  storeBytes (storeBytes iv 0 (List.replicate (cc.iv_size - 8) 0)) (cc.iv_size - 8)
    (beBytes 8 ((((s % U64) <<< st.benbi_shift) + 1) % U64))

/-- Model of `crypt_iv_null_gen`: the IV is all zero. -/
def crypt_iv_null_gen (cc : crypt_config) (iv : List Nat) : List Nat :=
  storeBytes iv 0 (List.replicate cc.iv_size 0)

/-- The 16-byte block written by `crypt_iv_lmk_one` after the data
blocks: the sector number cropped to 56 bits with a version tag in the
top byte, the constant 4024, and a zero word, all little-endian. -/
def lmk_sector_buf (s : Nat) : List Nat :=
  leBytes 4 (s % U32) ++ leBytes 4 ((((s / U32) % 2 ^ 24) ||| 0x80000000) % U32) ++
    leBytes 4 4024 ++ leBytes 4 0

/-- Model of `crypt_iv_lmk_one`: MD5 (without final padding, exported
state) over the optional seed, bytes 16..512 of the sector data, and
the encoded sector block; the digest is truncated to `iv_size`. -/
def crypt_iv_lmk_one (cc : crypt_config) (st : iv_gen_state) (env : IvGenEnv)
    (s : Nat) (data : List Nat) : List Nat :=
  (env.lmk_hash ((st.lmk_seed.getD []) ++ ((data.drop 16).take (16 * 31)) ++
    lmk_sector_buf s)).take cc.iv_size

/-- Model of `crypt_iv_lmk_gen`: on the write path the IV is the lmk
hash of the sector's own plaintext; on the read path the buffer is
zeroed (the real IV is recomputed by the post hook). -/
def crypt_iv_lmk_gen (cc : crypt_config) (st : iv_gen_state) (env : IvGenEnv)
    (iv : List Nat) (s : Nat) (data : List Nat) (isWrite : Bool) : List Nat :=
  if isWrite then crypt_iv_lmk_one cc st env s data
  else storeBytes iv 0 (List.replicate cc.iv_size 0)

/-- Model of the IV computation of `crypt_iv_tcw_gen`: the first 8 IV
bytes are the seed xored with the little-endian sector number; for IV
sizes above 8 the remaining bytes are the rest of the seed xored with
the leading bytes of the sector number again. -/
def crypt_iv_tcw_gen (cc : crypt_config) (st : iv_gen_state) (iv : List Nat) (s : Nat) :
    List Nat :=
  let sec := leBytes 8 (s % U64)
  let iv1 := storeBytes iv 0 (xorBytes (st.tcw_iv_seed.take 8) sec)
  if 8 < cc.iv_size then
    storeBytes iv1 8 (xorBytes ((st.tcw_iv_seed.drop 8).take (cc.iv_size - 8))
      (sec.take (cc.iv_size - 8)))
  else iv1

/-- Model of `crypt_iv_random_gen`: the IV is drawn from the kernel
random source (`get_random_bytes`). -/
def crypt_iv_random_gen (cc : crypt_config) (env : IvGenEnv) (iv : List Nat) : List Nat :=
  storeBytes iv 0 (env.rand.take cc.iv_size)

/-- Dispatcher over the IV generator function table: given the mode,
the configuration, the generator state, the environment, the caller's
IV buffer, the sector number, the sector data (read by lmk) and the
I/O direction, produce the IV buffer contents after `generator` ran. -/
def crypt_iv_gen (mode : IvMode) (cc : crypt_config) (st : iv_gen_state) (env : IvGenEnv)
    (iv : List Nat) (s : Nat) (data : List Nat) (isWrite : Bool) : List Nat :=
  match mode with
  | .plain => crypt_iv_plain_gen cc iv s
  | .plain64 => crypt_iv_plain64_gen cc iv s
  | .plain64be => crypt_iv_plain64be_gen cc iv s
  | .essiv => crypt_iv_essiv_gen cc env iv s
  | .benbi => crypt_iv_benbi_gen cc st iv s
  | .null => crypt_iv_null_gen cc iv
  | .lmk => crypt_iv_lmk_gen cc st env iv s data isWrite
  | .tcw => crypt_iv_tcw_gen cc st iv s
  | .random => crypt_iv_random_gen cc env iv

/-- Model of `crypt_iv_benbi_ctr`: with `bs` the cipher block size,
fail with EINVAL unless `bs` is a power of two not exceeding 512
bytes; on success record the shift `9 - log2 bs` used by the
generator.  `Nat.log2` coincides with the kernel's `ilog2` on positive
arguments. -/
def crypt_iv_benbi_ctr (bs : Nat) : Except Int Nat :=
  let log := Nat.log2 bs
  if 1 <<< log ≠ bs then .error (-eInval)
  else if 9 < log then .error (-eInval)
  else .ok (9 - log)

/-- Allocation steps a generator constructor may perform; used to state
that a failing constructor allocated nothing. -/
inductive IvCtrAlloc
  | lmkHashTfm
  | lmkSeed
  | tcwCrc32Tfm
  | tcwSeedBuffers
deriving DecidableEq, Repr

/-- Model of `crypt_iv_lmk_ctr`: reject any sector size other than 512
bytes before allocating anything; otherwise allocate the MD5 transform
and, when the key layout carries a seed (`key_parts ≠ tfms_count`),
the seed buffer.  `allocOk` models success of the kernel allocators.
The result pairs the returned errno (0 on success) with the list of
allocations performed and still held on return. -/
def crypt_iv_lmk_ctr (cc : crypt_config) (allocOk : Bool) : Int × List IvCtrAlloc :=
  if cc.sector_size ≠ 1 <<< SECTOR_SHIFT then (-eInval, [])
  else if ¬allocOk then (-eNoMem, [])
  else if cc.key_parts = cc.tfms_count then (0, [.lmkHashTfm])
  else (0, [.lmkHashTfm, .lmkSeed])

/-- TCW_WHITENING_SIZE from the source: 16 bytes. -/
def TCW_WHITENING_SIZE : Nat := 16

/-- Model of `crypt_iv_tcw_ctr`: reject any sector size other than 512
bytes, then reject key sizes too small to carry the IV seed and the
whitening material, both before allocating anything; otherwise
allocate the CRC32 transform and the two seed buffers. -/
def crypt_iv_tcw_ctr (cc : crypt_config) (allocOk : Bool) : Int × List IvCtrAlloc :=
  if cc.sector_size ≠ 1 <<< SECTOR_SHIFT then (-eInval, [])
  else if cc.key_size ≤ cc.iv_size + TCW_WHITENING_SIZE then (-eInval, [])
  else if ¬allocOk then (-eNoMem, [])
  else (0, [.tcwCrc32Tfm, .tcwSeedBuffers])

/-- Binary search tree of completed write requests keyed by starting
sector, modelling the rb-tree `cc->write_tree` (rebalancing by
`rb_insert_color` preserves both the key ordering and the stored
multiset, so it is omitted). -/
inductive WriteTree
  | nil
  | node (l : WriteTree) (sector : Nat) (r : WriteTree)
deriving DecidableEq, Repr

/-- Model of the insertion loop of `kcryptd_crypt_write_io_submit`:
descend left when the new sector is strictly below the node's sector,
right otherwise, and link the new node at the reached leaf. -/
def write_tree_insert : WriteTree → Nat → WriteTree
  | .nil, s => .node .nil s .nil
  | .node l k r, s =>
    if s < k then .node (write_tree_insert l s) k r
    else .node l k (write_tree_insert r s)

/-- Insert a batch of completed writes, in the (arbitrary) order their
conversions finished. -/
def write_tree_insert_all (xs : List Nat) : WriteTree :=
  xs.foldl write_tree_insert .nil

/-- Number of entries of the tree. -/
def write_tree_size : WriteTree → Nat
  | .nil => 0
  | .node l _ r => write_tree_size l + write_tree_size r + 1

/-- In-order key sequence of the tree. -/
def write_tree_inorder : WriteTree → List Nat
  | .nil => []
  | .node l k r => write_tree_inorder l ++ k :: write_tree_inorder r

/-- Model of `rb_first` followed by `rb_erase` on the first node:
return the leftmost (minimal) key together with the remaining tree. -/
def write_tree_extract_first : WriteTree → Option (Nat × WriteTree)
  | .nil => none
  | .node .nil k r => some (k, r)
  | .node (.node ll lk lr) k r =>
    match write_tree_extract_first (.node ll lk lr) with
    | some (m, l2) => some (m, .node l2 k r)
    | none => none

/-- Drain loop body of `dmcrypt_write`: repeatedly pop the first
(leftmost) node and submit it, until the swapped-out tree is empty.
The `fuel` argument is only a termination bound; `dmcrypt_write_drain`
instantiates it with the tree size, which is provably sufficient. -/
def write_tree_drain : Nat → WriteTree → List Nat
  | 0, _ => []
  | fuel + 1, t =>
    match write_tree_extract_first t with
    | none => []
    | some (k, t2) => k :: write_tree_drain fuel t2

/-- Sequence of sectors which the batch-drain loop of `dmcrypt_write`
submits to the underlying device, in submission order. -/
def dmcrypt_write_drain (t : WriteTree) : List Nat :=
  write_tree_drain (write_tree_size t) t

/-- The fields of `struct convert_context` that `crypt_convert` and the
block conversion routines read and write: the sector cursor, the
remaining byte counts of the input and output bio iterators, the
pending-operation counter, and whether a cipher sub-request is
currently attached (`ctx->r.req != NULL`).  `isWrite` records the
direction of `ctx->bio_in`. -/
structure convert_context where
  cc_sector : Nat
  iter_in_size : Nat
  iter_out_size : Nat
  cc_pending : Int
  req_attached : Bool
  isWrite : Bool
deriving DecidableEq, Repr

/-- Per-iteration behaviour of the external actors of one block
conversion, indexed by the submission counter: the length of the
current input bio vector, the result of the IV generator, the result
of the cipher engine call, and the result of the post hook.
`iv_sync` records that the synchronous IV generators never return the
asynchronous-engine statuses EBUSY/EINPROGRESS. -/
structure block_oracle where
  bvLen : Nat → Nat
  ivRes : Nat → Int
  cipherRes : Nat → Int
  postRes : Nat → Int
  iv_sync : ∀ k, ivRes k ≠ -eBusy ∧ ivRes k ≠ -eInProgress

/-- Whether the IV generator is invoked by a block conversion: it is
skipped entirely when no generator is configured, and on reads with
out-of-band IV storage the stored IV is copied instead. -/
def iv_gen_called (cc : crypt_config) (ctx : convert_context) : Bool :=
  cc.has_iv_gen && !(cc.integrity_iv_size ≠ 0 && !ctx.isWrite)

/-- Model of `crypt_convert_block_skcipher`: reject an input bio vector
whose length is not sector aligned (without touching the context);
otherwise run the IV generator (propagating its failure without
touching the context), invoke the cipher, run the post hook on
synchronous success, and advance both iterators by exactly one
sector-group before returning the result. -/
def crypt_convert_block_skcipher (cc : crypt_config) (ctx : convert_context)
    (bvLen : Nat) (ivRes cipherRes postRes : Int) : Int × convert_context :=
  if bvLen &&& (cc.sector_size - 1) ≠ 0 then (-eIoError, ctx)
  else if iv_gen_called cc ctx ∧ ivRes < 0 then (ivRes, ctx)
  else
    let r := cipherRes
    let r2 := if r = 0 ∧ cc.has_iv_gen ∧ cc.has_iv_post then postRes else r
    (r2, { ctx with iter_in_size := ctx.iter_in_size - cc.sector_size,
                    iter_out_size := ctx.iter_out_size - cc.sector_size })

/-- Model of `crypt_convert_block_aead`: same control flow as the
skcipher variant for the alignment check, the IV generator, the cipher
call (AEAD encrypt or decrypt, an integrity mismatch surfacing as
-EBADMSG in `cipherRes`), the post hook, and the final advance of both
iterators by one sector-group. -/
def crypt_convert_block_aead (cc : crypt_config) (ctx : convert_context)
    (bvLen : Nat) (ivRes cipherRes postRes : Int) : Int × convert_context :=
  if bvLen &&& (cc.sector_size - 1) ≠ 0 then (-eIoError, ctx)
  else if iv_gen_called cc ctx ∧ ivRes < 0 then (ivRes, ctx)
  else
    let r := cipherRes
    let r2 := if r = 0 ∧ cc.has_iv_gen ∧ cc.has_iv_post then postRes else r
    (r2, { ctx with iter_in_size := ctx.iter_in_size - cc.sector_size,
                    iter_out_size := ctx.iter_out_size - cc.sector_size })

/-- Dispatch of `crypt_convert` to the AEAD or skcipher block routine. -/
def crypt_convert_block (cc : crypt_config) (ctx : convert_context)
    (bvLen : Nat) (ivRes cipherRes postRes : Int) : Int × convert_context :=
  if cc.integrity_aead then crypt_convert_block_aead cc ctx bvLen ivRes cipherRes postRes
  else crypt_convert_block_skcipher cc ctx bvLen ivRes cipherRes postRes

/-- Block-layer request status, the return type of `crypt_convert`
(BLK_STS_OK, BLK_STS_IOERR, BLK_STS_PROTECTION). -/
inductive BlkStatus
  | ok
  | ioerr
  | protection
deriving DecidableEq, Repr

/-- Observable record of one cipher submission made by the conversion
loop: the values of the sector cursor, the tag offset and the two data
cursors at the time of the submission, the result the block conversion
returned, and whether the loop then suspended on `ctx->restart`
(which it does exactly for the EBUSY result). -/
structure SubRec where
  sec : Nat
  tag : Nat
  inSize : Nat
  outSize : Nat
  result : Int
  waited : Bool
deriving DecidableEq, Repr

/-- The conversion loop of `crypt_convert`, one recursive call per
iteration of the C `while` loop.  `tag_offset` doubles as the index
into the per-submission oracle.  Per the source: allocate (attach) a
request and increment `cc_pending`, invoke the block conversion, then
branch on its result — EBUSY waits for the restart completion and
falls through to the EINPROGRESS handling (detach the request, advance
the sector cursor and tag offset, continue); synchronous success
additionally drops the pending count; EBADMSG and any other error drop
the pending count and abort with a protection or I/O error status.
The `fuel` argument is only a termination bound; `crypt_convert`
instantiates it with the input byte count, which is provably
sufficient. -/
def crypt_convert_go (cc : crypt_config) (or : block_oracle) :
    Nat → convert_context → Nat → BlkStatus × convert_context × List SubRec
  | 0, ctx, _ => (.ok, ctx, [])
  | fuel + 1, ctx, tag_offset =>
    if ctx.iter_in_size ≠ 0 ∧ ctx.iter_out_size ≠ 0 then
      let ctx1 := { ctx with req_attached := true, cc_pending := ctx.cc_pending + 1 }
      let res := crypt_convert_block cc ctx1 (or.bvLen tag_offset) (or.ivRes tag_offset)
        (or.cipherRes tag_offset) (or.postRes tag_offset)
      let rec0 : SubRec :=
        { sec := ctx.cc_sector, tag := tag_offset, inSize := ctx.iter_in_size,
          outSize := ctx.iter_out_size, result := res.1, waited := res.1 = -eBusy }
      if res.1 = -eBusy ∨ res.1 = -eInProgress then
        let next := crypt_convert_go cc or fuel
          { res.2 with req_attached := false,
                       cc_sector := res.2.cc_sector + (cc.sector_size >>> SECTOR_SHIFT) }
          (tag_offset + 1)
        (next.1, next.2.1, rec0 :: next.2.2)
      else if res.1 = 0 then
        let next := crypt_convert_go cc or fuel
          { res.2 with cc_pending := res.2.cc_pending - 1,
                       cc_sector := res.2.cc_sector + (cc.sector_size >>> SECTOR_SHIFT) }
          (tag_offset + 1)
        (next.1, next.2.1, rec0 :: next.2.2)
      else if res.1 = -eBadMsg then
        (.protection, { res.2 with cc_pending := res.2.cc_pending - 1 }, [rec0])
      else
        (.ioerr, { res.2 with cc_pending := res.2.cc_pending - 1 }, [rec0])
    else (.ok, ctx, [])

/-- Model of `crypt_convert`: seed `cc_pending` at 1 and run the loop
with `tag_offset` starting at 0.  The result carries the returned
status, the final context, and the trace of submissions. -/
def crypt_convert (cc : crypt_config) (or : block_oracle) (ctx : convert_context) :
    BlkStatus × convert_context × List SubRec :=
  crypt_convert_go cc or ctx.iter_in_size { ctx with cc_pending := 1 } 0

/-- Submissions accepted asynchronously (EBUSY after backlogging, or
EINPROGRESS): their pending-count decrement is performed later by
`kcryptd_async_done`, not by the loop. -/
def asyncCount (tr : List SubRec) : Nat :=
  (tr.filter (fun rec0 => rec0.result = -eBusy ∨ rec0.result = -eInProgress)).length

/-- Effect of one invocation of the asynchronous completion callback
`kcryptd_async_done`. -/
structure async_done_effect where
  completed_restart : Bool
  dec_pending : Bool
  set_error : Option BlkStatus
deriving DecidableEq, Repr

/-- Model of `kcryptd_async_done`: a callback with -EINPROGRESS only
signals `ctx->restart` (the request left the engine backlog) and
returns without touching the pending count; otherwise the post hook
runs on success, an -EBADMSG outcome is recorded as a protection
error, any other failure as an I/O error, and the pending count is
dropped by exactly one. -/
def kcryptd_async_done (cc : crypt_config) (error : Int) (postRes : Int) :
    async_done_effect :=
  if error = -eInProgress then { completed_restart := true, dec_pending := false,
                                 set_error := none }
  else
    let e := if error = 0 ∧ cc.has_iv_gen ∧ cc.has_iv_post then postRes else error
    { completed_restart := false, dec_pending := true,
      set_error := if e = -eBadMsg then some .protection
                   else if e < 0 then some .ioerr else none }

/-- Events acting on the `cc_pending` counter of one conversion
context: the increment before a block submission, the matching
decrement when that submission completes (synchronously in the loop or
in `kcryptd_async_done`), and the single decrement of the seed
reference performed by the caller of `crypt_convert` after the
submission loop has finished. -/
inductive CCEvent
  | incSubmit
  | decComplete
  | decSeed
deriving DecidableEq, Repr

/-- Value of `cc_pending` (seeded at 1 by `crypt_convert`) after a
sequence of counter events. -/
def ccPending (es : List CCEvent) : Int :=
  1 + ((es.filter (· = CCEvent.incSubmit)).length : Int) -
    ((es.filter (· = CCEvent.decComplete)).length : Int) -
    ((es.filter (· = CCEvent.decSeed)).length : Int)

/-- An interleaving of the counter events of a conversion with `n`
block submissions, as the concurrency of the code permits: every
submission is incremented once and completed once, the completion of a
submission happens after its increment (enforced per prefix), the seed
decrement happens exactly once and only after the submission loop has
issued all increments, and nothing else touches the counter. -/
def ValidSchedule (n : Nat) (es : List CCEvent) : Prop :=
  (es.filter (· = CCEvent.incSubmit)).length = n ∧
  (es.filter (· = CCEvent.decComplete)).length = n ∧
  (es.filter (· = CCEvent.decSeed)).length = 1 ∧
  (∀ k, ((es.take k).filter (· = CCEvent.decComplete)).length ≤
    ((es.take k).filter (· = CCEvent.incSubmit)).length) ∧
  (∀ k, CCEvent.decSeed ∈ es.take k →
    ((es.take k).filter (· = CCEvent.incSubmit)).length = n)

/-- The fields of `struct bio` that `crypt_map` inspects: the REQ_PREFLUSH
flag, whether the operation is REQ_OP_DISCARD, the starting sector, the
byte length, and the data direction. -/
structure Bio where
  preflush : Bool
  discard : Bool
  bi_sector : Nat
  bi_size : Nat
  isWrite : Bool
deriving DecidableEq, Repr

/-- bio_sectors(bio): the bio length in 512-byte sectors. -/
def bio_sectors (bio : Bio) : Nat := bio.bi_size >>> SECTOR_SHIFT

/-- BIO_MAX_PAGES << PAGE_SHIFT, the byte bound over which `crypt_map`
asks the device-mapper core to split a write. -/
def BIO_MAX_BYTES : Nat := 256 <<< 12

/-- Observable side effects of `crypt_map` on dm-crypt state: asking
the dm core to split the bio, initialising the per-bio tracking record
(`crypt_io_init`), allocating the out-of-band tag buffer, and queueing
the read or the write-conversion work. -/
inductive MapEvent
  | acceptPartial
  | ioInit
  | allocTag
  | queueRead
  | queueCrypt
deriving DecidableEq, Repr

/-- Return disposition of `crypt_map` (DM_MAPIO_REMAPPED with the
translated sector, DM_MAPIO_KILL, DM_MAPIO_SUBMITTED). -/
inductive MapRet
  | remapped (sector : Nat)
  | kill
  | submitted
deriving DecidableEq, Repr

/-- Model of `crypt_map`.  `ti_begin` is the start of the target within
the virtual device, so `dm_target_offset(ti, s) = s - ti_begin`.
Preflush and discard bios bypass the crypt queues entirely: they are
redirected to the underlying device, with the sector translated by the
configured start offset when the bio carries sectors, and no state is
created.  Otherwise an oversized write (or any oversized bio when tags
are stored out-of-band) is first split, then the start sector and the
byte length are checked against the configured sector size and a
violation is killed before the tracking record is initialised; an
accepted bio initialises the record, allocates the tag buffer when
tags are out-of-band, and queues the read or the conversion work. -/
def crypt_map (cc : crypt_config) (ti_begin : Nat) (bio : Bio) :
    MapRet × List MapEvent :=
  if bio.preflush ∨ bio.discard then
    (.remapped (if bio_sectors bio ≠ 0 then cc.start + (bio.bi_sector - ti_begin)
                else bio.bi_sector), [])
  else
    let ev0 : List MapEvent :=
      if bio.bi_size > BIO_MAX_BYTES ∧ (bio.isWrite ∨ cc.on_disk_tag_size ≠ 0) then
        [.acceptPartial]
      else []
    if bio.bi_sector &&& ((cc.sector_size >>> SECTOR_SHIFT) - 1) ≠ 0 then (.kill, ev0)
    else if bio.bi_size &&& (cc.sector_size - 1) ≠ 0 then (.kill, ev0)
    else
      let ev1 := ev0 ++ [.ioInit] ++
        (if cc.on_disk_tag_size ≠ 0 then [.allocTag] else []) ++
        (if ¬bio.isWrite ∨ cc.mode_diskcipher then [.queueRead] else [.queueCrypt])
      (.submitted, ev1)

/-- The key-handling state of one dm-crypt target: the DM_CRYPT_KEY_VALID
and DM_CRYPT_SUSPENDED flag bits, the key bytes held in `cc->key`, the
declared key size, whether a keyring key string is held, and whether
the active IV generator has `init`/`wipe` hooks. -/
structure key_state where
  key_valid : Bool
  suspended : Bool
  key : List Nat
  key_size : Nat
  key_string_present : Bool
  has_iv_wipe : Bool
  has_iv_init : Bool
deriving DecidableEq, Repr

/-- Model of `crypt_wipe_key`: clear the key-valid flag, overwrite the
key bytes with random material, drop the keyring reference, push the
(random) key into the cipher transforms, and finally zeroise the key
bytes.  `setkeyRes` is the result of `crypt_setkey`, which is also the
value returned. -/
def crypt_wipe_key (s : key_state) (randKey : List Nat) (setkeyRes : Int) :
    Int × key_state :=
  let s1 := { s with key_valid := false, key := randKey.take s.key_size,
                     key_string_present := false }
  (setkeyRes, { s1 with key := List.replicate s1.key_size 0 })

/-- Model of the hex-key path of `crypt_set_key`: clear the key-valid
flag and the keyring reference first, decode the hex key (failure
leaves EINVAL), push the new key into the cipher transforms, and set
the key-valid flag again only when that succeeded. -/
def crypt_set_key (s : key_state) (hexOk : Bool) (newKey : List Nat)
    (setkeyRes : Int) : Int × key_state :=
  let s1 := { s with key_valid := false, key_string_present := false }
  if ¬hexOk then (-eInval, s1)
  else
    let s2 := { s1 with key := newKey.take s1.key_size }
    if setkeyRes = 0 then (0, { s2 with key_valid := true }) else (setkeyRes, s2)

/-- Model of `crypt_preresume`: resuming is refused with EAGAIN while
the key-valid flag is clear. -/
def crypt_preresume (s : key_state) : Int :=
  if ¬s.key_valid then -eAgain else 0

/-- Model of `crypt_postsuspend`: record that the device is suspended. -/
def crypt_postsuspend (s : key_state) : key_state :=
  { s with suspended := true }

/-- Model of `crypt_resume`: record that the device is active again. -/
def crypt_resume (s : key_state) : key_state :=
  { s with suspended := false }

/-- A runtime control message together with the outcomes of the
external calls it performs: `key set` carries the size check result,
the hex decode result, the new key bytes, the `crypt_setkey` result
and the IV-generator `init` result; `key wipe` carries the
IV-generator `wipe` result, the random bytes and the `crypt_setkey`
result; `other` is any unrecognised message. -/
inductive CryptMsg
  | keySet (sizeOk hexOk : Bool) (newKey : List Nat) (setkeyRes ivInitRes : Int)
  | keyWipe (ivWipeRes : Int) (randKey : List Nat) (setkeyRes : Int)
  | other
deriving DecidableEq, Repr

/-- Model of `crypt_message`: key manipulation is rejected with EINVAL
unless the device is suspended; `key set` checks the key size, runs
`crypt_set_key` and then the IV generator's `init` hook; `key wipe`
runs the IV generator's `wipe` hook and then `crypt_wipe_key`. -/
def crypt_message (s : key_state) (m : CryptMsg) : Int × key_state :=
  match m with
  | .keySet sizeOk hexOk newKey setkeyRes ivInitRes =>
    if ¬s.suspended then (-eInval, s)
    else if ¬sizeOk then (-eInval, s)
    else
      let r := crypt_set_key s hexOk newKey setkeyRes
      if r.1 ≠ 0 then r
      else if s.has_iv_init then (ivInitRes, r.2) else (0, r.2)
  | .keyWipe ivWipeRes randKey setkeyRes =>
    if ¬s.suspended then (-eInval, s)
    else if s.has_iv_wipe ∧ ivWipeRes ≠ 0 then (ivWipeRes, s)
    else crypt_wipe_key s randKey setkeyRes
  | .other => (-eInval, s)

/-- The operations of the key-handling lifecycle that can run between a
wipe and the next resume: suspension, a resume attempt (the dm core
runs `crypt_preresume` and only on success `crypt_resume`), and any
control message. -/
inductive CryptOp
  | postsuspend
  | resumeAttempt
  | message (m : CryptMsg)
deriving DecidableEq, Repr

/-- One step of the key-handling lifecycle. -/
def crypt_step (s : key_state) : CryptOp → key_state
  | .postsuspend => crypt_postsuspend s
  | .resumeAttempt => if crypt_preresume s = 0 then crypt_resume s else s
  | .message m => (crypt_message s m).2

/-- Run a sequence of lifecycle operations. -/
def crypt_run (s : key_state) (ops : List CryptOp) : key_state :=
  ops.foldl crypt_step s

/-- Whether an operation is a `key set` control message (the only
operation that can re-establish the key-valid flag). -/
def isKeySet : CryptOp → Bool
  | .message (.keySet _ _ _ _ _) => true
  | _ => false

/-- Concrete configuration with 512-byte sectors and a 16-byte IV,
used to evaluate the theorems on explicit inputs. -/
def cc512 : crypt_config :=
  { sector_size := 512, sector_size_pos := by decide, iv_size := 16, iv_offset := 0,
    start := 0, key_size := 32, key_parts := 1, tfms_count := 1,
    integrity_aead := false, mode_diskcipher := false, integrity_iv_size := 0,
    integrity_tag_size := 0, on_disk_tag_size := 0, has_iv_gen := true,
    has_iv_post := false }

/-- Concrete configuration with 4096-byte sectors, used to evaluate the
theorems on explicit inputs. -/
def cc4096 : crypt_config :=
  { cc512 with sector_size := 4096, sector_size_pos := by decide }

/-- Concrete IV generator state used in evaluations. -/
def ivState0 : iv_gen_state :=
  { benbi_shift := 4, lmk_seed := none, tcw_iv_seed := List.replicate 16 7,
    tcw_whitening := List.replicate 16 9 }

/-- Concrete generator environment whose random source yields ones. -/
def ivEnv1 : IvGenEnv :=
  { essiv_encrypt := fun l => l, lmk_hash := fun l => l, rand := List.replicate 16 1 }

/-- Concrete generator environment whose random source yields twos,
differing from `ivEnv1` only in the random source. -/
def ivEnv2 : IvGenEnv :=
  { essiv_encrypt := fun l => l, lmk_hash := fun l => l, rand := List.replicate 16 2 }

/-- A 16-byte zero buffer handed to the IV generators in evaluations. -/
def ivBuf0 : List Nat := List.replicate 16 0

/-- Concrete per-submission oracle: sector-aligned 512-byte bio
vectors, an IV generator and a post hook that always succeed, and a
cipher engine whose behaviour is given by `f`. -/
def oracle512 (f : Nat → Int) : block_oracle :=
  { bvLen := fun _ => 512, ivRes := fun _ => 0, cipherRes := f, postRes := fun _ => 0,
    iv_sync := fun k => by exact ⟨by simp [eBusy], by simp [eInProgress]⟩ }

/-- Concrete conversion context covering `n` sectors of 512 bytes. -/
def ctx512 (n : Nat) : convert_context :=
  { cc_sector := 0, iter_in_size := 512 * n, iter_out_size := 512 * n,
    cc_pending := 0, req_attached := true, isWrite := true }

/-- Concrete key-handling state holding a valid 32-byte key on a
suspended device. -/
def ks0 : key_state :=
  { key_valid := true, suspended := true, key := List.replicate 32 5, key_size := 32,
    key_string_present := false, has_iv_wipe := false, has_iv_init := false }

/-!
Theorems.  Helper lemmas come first, then one theorem per claim of the
specification (with a witness or counterexample where required).
-/

theorem leBytes_length (n v : Nat) : (leBytes n v).length = n := by
  induction n generalizing v with
  | zero => rfl
  | succ n ih => simp [leBytes, ih]

theorem beBytes_length (n v : Nat) : (beBytes n v).length = n := by
  simp [beBytes, leBytes_length]

theorem leBytes_mod_eq {n : Nat} : ∀ {a b : Nat}, leBytes n a = leBytes n b →
    a % 2 ^ (8 * n) = b % 2 ^ (8 * n) := by
  induction n with
  | zero => intro a b _; simp [Nat.mod_one]
  | succ n ih =>
    intro a b h
    simp only [leBytes, List.cons.injEq] at h
    have h2 := ih h.2
    have ha : a % 2 ^ (8 * (n + 1)) = a % 256 + 256 * (a / 256 % 2 ^ (8 * n)) := by
      have : (2 : Nat) ^ (8 * (n + 1)) = 256 * 2 ^ (8 * n) := by ring
      rw [this, Nat.mod_mul]
    have hb : b % 2 ^ (8 * (n + 1)) = b % 256 + 256 * (b / 256 % 2 ^ (8 * n)) := by
      have : (2 : Nat) ^ (8 * (n + 1)) = 256 * 2 ^ (8 * n) := by ring
      rw [this, Nat.mod_mul]
    rw [ha, hb, h.1, h2]

theorem leBytes_inj {n a b : Nat} (ha : a < 2 ^ (8 * n)) (hb : b < 2 ^ (8 * n))
    (h : leBytes n a = leBytes n b) : a = b := by
  have := leBytes_mod_eq h
  rwa [Nat.mod_eq_of_lt ha, Nat.mod_eq_of_lt hb] at this

theorem beBytes_inj {n a b : Nat} (ha : a < 2 ^ (8 * n)) (hb : b < 2 ^ (8 * n))
    (h : beBytes n a = beBytes n b) : a = b := by
  apply leBytes_inj ha hb
  have := congrArg List.reverse h
  simpa [beBytes] using this

theorem storeBytes_at_zero (iv bytes : List Nat) :
    storeBytes iv 0 bytes = bytes ++ iv.drop bytes.length := by
  simp [storeBytes]

theorem crypt_iv_plain_gen_eq (cc : crypt_config) (iv : List Nat) (s : Nat)
    (hlen : iv.length = cc.iv_size) (h4 : 4 ≤ cc.iv_size) :
    crypt_iv_plain_gen cc iv s = leBytes 4 (s % U32) ++ List.replicate (cc.iv_size - 4) 0 := by
  unfold crypt_iv_plain_gen
  rw [storeBytes_at_zero, storeBytes_at_zero]
  rw [List.length_replicate, ← hlen, List.drop_length]
  simp [leBytes_length, List.drop_replicate, List.drop_append_eq_append_drop]

theorem crypt_iv_plain64_gen_eq (cc : crypt_config) (iv : List Nat) (s : Nat)
    (hlen : iv.length = cc.iv_size) (h8 : 8 ≤ cc.iv_size) :
    crypt_iv_plain64_gen cc iv s =
      leBytes 8 (s % U64) ++ List.replicate (cc.iv_size - 8) 0 := by
  unfold crypt_iv_plain64_gen
  rw [storeBytes_at_zero, storeBytes_at_zero]
  rw [List.length_replicate, ← hlen, List.drop_length]
  simp [leBytes_length, List.drop_replicate, List.drop_append_eq_append_drop]

theorem crypt_iv_plain64be_gen_eq (cc : crypt_config) (iv : List Nat) (s : Nat)
    (hlen : iv.length = cc.iv_size) (h8 : 8 ≤ cc.iv_size) :
    crypt_iv_plain64be_gen cc iv s =
      List.replicate (cc.iv_size - 8) 0 ++ beBytes 8 (s % U64) := by
  unfold crypt_iv_plain64be_gen
  rw [← hlen] at h8 ⊢
  rw [storeBytes_at_zero]
  rw [List.length_replicate, List.drop_length]
  unfold storeBytes
  rw [List.append_nil, beBytes_length, List.take_replicate, List.drop_replicate]
  have h1 : min (iv.length - 8) iv.length = iv.length - 8 := by omega
  have h2 : iv.length - (iv.length - 8 + 8) = 0 := by omega
  rw [h1, h2]
  simp

theorem crypt_iv_benbi_gen_eq (cc : crypt_config) (st : iv_gen_state) (iv : List Nat)
    (s : Nat) (hlen : iv.length = cc.iv_size) (h8 : 8 ≤ cc.iv_size) :
    crypt_iv_benbi_gen cc st iv s =
      List.replicate (cc.iv_size - 8) 0 ++
        beBytes 8 ((((s % U64) <<< st.benbi_shift) + 1) % U64) := by
  unfold crypt_iv_benbi_gen
  rw [← hlen] at h8 ⊢
  rw [storeBytes_at_zero]
  unfold storeBytes
  rw [List.length_replicate, beBytes_length]
  rw [List.take_append_of_le_length (by simp [List.length_replicate])]
  rw [List.take_replicate, Nat.min_self]
  have hlen2 : (List.replicate (iv.length - 8) 0 ++ iv.drop (iv.length - 8)).length
      = iv.length := by
    simp
  rw [List.drop_eq_nil_of_le (by rw [hlen2]; omega), List.append_nil]

theorem plain_gen_inj (cc : crypt_config) (iv1 iv2 : List Nat) (s1 s2 : Nat)
    (h1 : iv1.length = cc.iv_size) (h2 : iv2.length = cc.iv_size) (h4 : 4 ≤ cc.iv_size)
    (hs1 : s1 < U32) (hs2 : s2 < U32) (hne : s1 ≠ s2) :
    crypt_iv_plain_gen cc iv1 s1 ≠ crypt_iv_plain_gen cc iv2 s2 := by
  rw [crypt_iv_plain_gen_eq cc iv1 s1 h1 h4, crypt_iv_plain_gen_eq cc iv2 s2 h2 h4]
  intro h
  have hpre := (List.append_inj h (by rw [leBytes_length, leBytes_length])).1
  have hU : U32 = 2 ^ (8 * 4) := by norm_num [U32]
  apply hne
  have := @leBytes_inj 4 _ _ (by rw [← hU]; exact Nat.mod_lt _ (by norm_num [U32]))
    (by rw [← hU]; exact Nat.mod_lt _ (by norm_num [U32])) hpre
  rwa [Nat.mod_eq_of_lt hs1, Nat.mod_eq_of_lt hs2] at this

theorem plain64_gen_inj (cc : crypt_config) (iv1 iv2 : List Nat) (s1 s2 : Nat)
    (h1 : iv1.length = cc.iv_size) (h2 : iv2.length = cc.iv_size) (h8 : 8 ≤ cc.iv_size)
    (hs1 : s1 < U64) (hs2 : s2 < U64) (hne : s1 ≠ s2) :
    crypt_iv_plain64_gen cc iv1 s1 ≠ crypt_iv_plain64_gen cc iv2 s2 := by
  rw [crypt_iv_plain64_gen_eq cc iv1 s1 h1 h8, crypt_iv_plain64_gen_eq cc iv2 s2 h2 h8]
  intro h
  have hpre := (List.append_inj h (by rw [leBytes_length, leBytes_length])).1
  have hU : U64 = 2 ^ (8 * 8) := by norm_num [U64]
  apply hne
  have := @leBytes_inj 8 _ _ (by rw [← hU]; exact Nat.mod_lt _ (by norm_num [U64]))
    (by rw [← hU]; exact Nat.mod_lt _ (by norm_num [U64])) hpre
  rwa [Nat.mod_eq_of_lt hs1, Nat.mod_eq_of_lt hs2] at this

theorem plain64be_gen_inj (cc : crypt_config) (iv1 iv2 : List Nat) (s1 s2 : Nat)
    (h1 : iv1.length = cc.iv_size) (h2 : iv2.length = cc.iv_size) (h8 : 8 ≤ cc.iv_size)
    (hs1 : s1 < U64) (hs2 : s2 < U64) (hne : s1 ≠ s2) :
    crypt_iv_plain64be_gen cc iv1 s1 ≠ crypt_iv_plain64be_gen cc iv2 s2 := by
  rw [crypt_iv_plain64be_gen_eq cc iv1 s1 h1 h8, crypt_iv_plain64be_gen_eq cc iv2 s2 h2 h8]
  intro h
  have hsuf := (List.append_inj h (by simp)).2
  have hU : U64 = 2 ^ (8 * 8) := by norm_num [U64]
  apply hne
  have := @beBytes_inj 8 _ _ (by rw [← hU]; exact Nat.mod_lt _ (by norm_num [U64]))
    (by rw [← hU]; exact Nat.mod_lt _ (by norm_num [U64])) hsuf
  rwa [Nat.mod_eq_of_lt hs1, Nat.mod_eq_of_lt hs2] at this

theorem benbi_gen_inj (cc : crypt_config) (st : iv_gen_state) (iv1 iv2 : List Nat)
    (s1 s2 : Nat) (h1 : iv1.length = cc.iv_size) (h2 : iv2.length = cc.iv_size)
    (h8 : 8 ≤ cc.iv_size) (hsh : st.benbi_shift ≤ 9)
    (hs1 : s1 < 2 ^ (64 - st.benbi_shift)) (hs2 : s2 < 2 ^ (64 - st.benbi_shift))
    (hne : s1 ≠ s2) :
    crypt_iv_benbi_gen cc st iv1 s1 ≠ crypt_iv_benbi_gen cc st iv2 s2 := by
  have hrange : 2 ^ (64 - st.benbi_shift) ≤ U64 := by
    unfold U64
    exact Nat.pow_le_pow_right (by norm_num) (by omega)
  have hs1u : s1 < U64 := lt_of_lt_of_le hs1 hrange
  have hs2u : s2 < U64 := lt_of_lt_of_le hs2 hrange
  rw [crypt_iv_benbi_gen_eq cc st iv1 s1 h1 h8, crypt_iv_benbi_gen_eq cc st iv2 s2 h2 h8]
  rw [Nat.mod_eq_of_lt hs1u, Nat.mod_eq_of_lt hs2u]
  intro h
  have hsuf := (List.append_inj h (by simp)).2
  have hU : U64 = 2 ^ (8 * 8) := by norm_num [U64]
  have hval := @beBytes_inj 8 _ _
    (by rw [← hU]; exact Nat.mod_lt _ (by norm_num [U64]))
    (by rw [← hU]; exact Nat.mod_lt _ (by norm_num [U64])) hsuf
  have hmodeq : s1 <<< st.benbi_shift + 1 ≡ s2 <<< st.benbi_shift + 1 [MOD U64] := hval
  have hmul : s1 * 2 ^ st.benbi_shift ≡ s2 * 2 ^ st.benbi_shift [MOD U64] := by
    have := Nat.ModEq.add_right_cancel' 1 hmodeq
    rwa [Nat.shiftLeft_eq, Nat.shiftLeft_eq] at this
  have hsplit : U64 = 2 ^ (64 - st.benbi_shift) * 2 ^ st.benbi_shift := by
    rw [U64, ← pow_add]
    congr 1
    omega
  rw [hsplit] at hmul
  have hcancel := Nat.ModEq.mul_right_cancel'
    (show (2 : Nat) ^ st.benbi_shift ≠ 0 by positivity) hmul
  apply hne
  have : s1 % 2 ^ (64 - st.benbi_shift) = s2 % 2 ^ (64 - st.benbi_shift) := hcancel
  rwa [Nat.mod_eq_of_lt hs1, Nat.mod_eq_of_lt hs2] at this

/-- Claim C4: for every sector number, the IV generator is
deterministic for every mode except random — the generated IV does not
depend on the random source, only on the configuration, the generator
state, the deterministic crypto primitives, the sector and (for lmk)
the sector data; and for the plain, plain64, plain64be and benbi modes
two distinct sector numbers within the range representable in the IV
(2^32 for plain, 2^64 for plain64/plain64be, 2^(64-shift) for benbi,
whose shift is derived from the cipher block size) yield distinct IVs. -/
theorem claim_C4_iv_deterministic_and_injective :
    (∀ (mode : IvMode), mode ≠ .random →
      ∀ (cc : crypt_config) (st : iv_gen_state) (env1 env2 : IvGenEnv)
        (iv : List Nat) (s : Nat) (data : List Nat) (w : Bool),
        env1.essiv_encrypt = env2.essiv_encrypt → env1.lmk_hash = env2.lmk_hash →
        crypt_iv_gen mode cc st env1 iv s data w = crypt_iv_gen mode cc st env2 iv s data w) ∧
    (∀ (cc : crypt_config) (iv1 iv2 : List Nat) (s1 s2 : Nat),
      iv1.length = cc.iv_size → iv2.length = cc.iv_size → 4 ≤ cc.iv_size →
      s1 < U32 → s2 < U32 → s1 ≠ s2 →
      crypt_iv_plain_gen cc iv1 s1 ≠ crypt_iv_plain_gen cc iv2 s2) ∧
    (∀ (cc : crypt_config) (iv1 iv2 : List Nat) (s1 s2 : Nat),
      iv1.length = cc.iv_size → iv2.length = cc.iv_size → 8 ≤ cc.iv_size →
      s1 < U64 → s2 < U64 → s1 ≠ s2 →
      crypt_iv_plain64_gen cc iv1 s1 ≠ crypt_iv_plain64_gen cc iv2 s2) ∧
    (∀ (cc : crypt_config) (iv1 iv2 : List Nat) (s1 s2 : Nat),
      iv1.length = cc.iv_size → iv2.length = cc.iv_size → 8 ≤ cc.iv_size →
      s1 < U64 → s2 < U64 → s1 ≠ s2 →
      crypt_iv_plain64be_gen cc iv1 s1 ≠ crypt_iv_plain64be_gen cc iv2 s2) ∧
    (∀ (cc : crypt_config) (st : iv_gen_state) (iv1 iv2 : List Nat) (s1 s2 : Nat),
      iv1.length = cc.iv_size → iv2.length = cc.iv_size → 8 ≤ cc.iv_size →
      st.benbi_shift ≤ 9 → s1 < 2 ^ (64 - st.benbi_shift) →
      s2 < 2 ^ (64 - st.benbi_shift) → s1 ≠ s2 →
      crypt_iv_benbi_gen cc st iv1 s1 ≠ crypt_iv_benbi_gen cc st iv2 s2) := by
  refine ⟨?_, plain_gen_inj, plain64_gen_inj, plain64be_gen_inj, benbi_gen_inj⟩
  intro mode hmode cc st env1 env2 iv s data w hessiv hlmk
  cases mode with
  | plain => rfl
  | plain64 => rfl
  | plain64be => rfl
  | essiv => simp [crypt_iv_gen, crypt_iv_essiv_gen, hessiv]
  | benbi => rfl
  | null => rfl
  | lmk => simp [crypt_iv_gen, crypt_iv_lmk_gen, crypt_iv_lmk_one, hlmk]
  | tcw => rfl
  | random => exact absurd rfl hmode

/-- Witness for C4: a concrete instantiation — changing only the random
source leaves the plain-mode IV unchanged, and sectors 3 and 5 yield
distinct IVs in each of the four injective modes. -/
theorem claim_C4_witness :
    crypt_iv_gen .plain cc512 ivState0 ivEnv1 ivBuf0 3 [] true =
      crypt_iv_gen .plain cc512 ivState0 ivEnv2 ivBuf0 3 [] true ∧
    crypt_iv_plain_gen cc512 ivBuf0 3 ≠ crypt_iv_plain_gen cc512 ivBuf0 5 ∧
    crypt_iv_plain64_gen cc512 ivBuf0 3 ≠ crypt_iv_plain64_gen cc512 ivBuf0 5 ∧
    crypt_iv_plain64be_gen cc512 ivBuf0 3 ≠ crypt_iv_plain64be_gen cc512 ivBuf0 5 ∧
    crypt_iv_benbi_gen cc512 ivState0 ivBuf0 3 ≠ crypt_iv_benbi_gen cc512 ivState0 ivBuf0 5 := by
  refine ⟨claim_C4_iv_deterministic_and_injective.1 .plain (by simp) cc512 ivState0
      ivEnv1 ivEnv2 ivBuf0 3 [] true rfl rfl,
    claim_C4_iv_deterministic_and_injective.2.1 cc512 ivBuf0 ivBuf0 3 5 rfl rfl
      (by norm_num [cc512]) (by norm_num [U32]) (by norm_num [U32]) (by norm_num),
    claim_C4_iv_deterministic_and_injective.2.2.1 cc512 ivBuf0 ivBuf0 3 5 rfl rfl
      (by norm_num [cc512]) (by norm_num [U64]) (by norm_num [U64]) (by norm_num),
    claim_C4_iv_deterministic_and_injective.2.2.2.1 cc512 ivBuf0 ivBuf0 3 5 rfl rfl
      (by norm_num [cc512]) (by norm_num [U64]) (by norm_num [U64]) (by norm_num),
    claim_C4_iv_deterministic_and_injective.2.2.2.2 cc512 ivState0 ivBuf0 ivBuf0 3 5 rfl rfl
      (by norm_num [cc512]) (by norm_num [ivState0]) (by norm_num [ivState0])
      (by norm_num [ivState0]) (by norm_num)⟩

/-- Claim C5: benbi construction succeeds exactly when the cipher block
size is a power of two of at most 512 bytes, the recorded shift is
9 - log2(blocksize), and the generated IV is the big-endian block
count (sector << shift) + 1 (the count starts at 1) stored right
aligned in the last 8 bytes of the IV with the leading bytes zero. -/
theorem claim_C5_benbi_ctr_and_gen : ∀ bs : Nat, 0 < bs →
    (((∃ k, bs = 2 ^ k) ∧ bs ≤ 512) ↔ ∃ sh, crypt_iv_benbi_ctr bs = .ok sh) ∧
    (∀ sh, crypt_iv_benbi_ctr bs = .ok sh →
      sh = 9 - Nat.log2 bs ∧
      ∀ (cc : crypt_config) (st : iv_gen_state) (iv : List Nat) (s : Nat),
        st.benbi_shift = sh → iv.length = cc.iv_size → 8 ≤ cc.iv_size → s < U64 →
        crypt_iv_benbi_gen cc st iv s =
          List.replicate (cc.iv_size - 8) 0 ++ beBytes 8 ((s <<< sh + 1) % U64)) := by
  intro bs hbs
  have hone : (1 : Nat) <<< Nat.log2 bs = 2 ^ Nat.log2 bs := Nat.one_shiftLeft _
  constructor
  · constructor
    · rintro ⟨⟨k, rfl⟩, hle⟩
      have hk9 : k ≤ 9 := by
        have h2 : (2 : Nat) ^ k ≤ 2 ^ 9 := le_trans hle (by norm_num)
        exact (Nat.pow_le_pow_iff_right (by norm_num)).1 h2
      exact ⟨9 - k, by
        simp [crypt_iv_benbi_ctr, Nat.log2_two_pow, Nat.one_shiftLeft, Nat.not_lt.2 hk9]⟩
    · rintro ⟨sh, hsh⟩
      unfold crypt_iv_benbi_ctr at hsh
      by_cases hpow : 1 <<< Nat.log2 bs = bs
      · have hbs2 : bs = 2 ^ Nat.log2 bs := by rw [← hone]; exact hpow.symm
        by_cases hlog : 9 < Nat.log2 bs
        · simp [hpow, hlog] at hsh
        · refine ⟨⟨Nat.log2 bs, hbs2⟩, ?_⟩
          calc bs = 2 ^ Nat.log2 bs := hbs2
            _ ≤ 2 ^ 9 := Nat.pow_le_pow_right (by norm_num) (by omega)
            _ = 512 := by norm_num
      · simp [hpow] at hsh
  · intro sh hsh
    unfold crypt_iv_benbi_ctr at hsh
    by_cases hpow : 1 <<< Nat.log2 bs = bs
    · by_cases hlog : 9 < Nat.log2 bs
      · simp [hpow, hlog] at hsh
      · simp [hpow, hlog] at hsh
        refine ⟨hsh.symm, ?_⟩
        intro cc st iv s hst hlen h8 hs
        rw [crypt_iv_benbi_gen_eq cc st iv s hlen h8, hst, Nat.mod_eq_of_lt hs]
    · simp [hpow] at hsh

/-- Witness for C5: block size 16 is accepted with shift 5, and the IV
for sector 3 under shift 5 is the big-endian value 3·32 + 1 = 97 in
the last 8 of 16 bytes. -/
theorem claim_C5_witness :
    (∃ sh, crypt_iv_benbi_ctr 16 = .ok sh) ∧
    crypt_iv_benbi_gen cc512 { ivState0 with benbi_shift := 5 } ivBuf0 3 =
      List.replicate 8 0 ++ beBytes 8 ((3 <<< 5 + 1) % U64) := by
  have hlog16 : Nat.log2 16 = 4 := by
    rw [show (16 : Nat) = 2 ^ 4 by norm_num, Nat.log2_two_pow]
  have hctr : crypt_iv_benbi_ctr 16 = .ok 5 := by
    simp [crypt_iv_benbi_ctr, hlog16, Nat.one_shiftLeft]
  refine ⟨((claim_C5_benbi_ctr_and_gen 16 (by norm_num)).1).1 ⟨⟨4, by norm_num⟩, by norm_num⟩, ?_⟩
  have h := ((claim_C5_benbi_ctr_and_gen 16 (by norm_num)).2 5 hctr).2
    cc512 { ivState0 with benbi_shift := 5 } ivBuf0 3 rfl rfl
    (by norm_num [cc512]) (by norm_num [U64])
  simpa [cc512] using h

/-- Claim C6: the lmk and tcw IV generator constructors reject every
configuration whose sector size is not exactly 512 bytes with EINVAL,
without allocating any generator state. -/
theorem claim_C6_lmk_tcw_sector_size :
    ∀ (cc : crypt_config) (allocOk : Bool), cc.sector_size ≠ 512 →
      crypt_iv_lmk_ctr cc allocOk = (-eInval, []) ∧
      crypt_iv_tcw_ctr cc allocOk = (-eInval, []) := by
  intro cc allocOk hss
  have h : cc.sector_size ≠ 1 <<< SECTOR_SHIFT := by
    simpa [SECTOR_SHIFT] using hss
  exact ⟨by simp [crypt_iv_lmk_ctr, h], by simp [crypt_iv_tcw_ctr, h]⟩

/-- Witness for C6: a 4096-byte-sector configuration is rejected by
both constructors with EINVAL and no allocations. -/
theorem claim_C6_witness :
    crypt_iv_lmk_ctr cc4096 true = (-eInval, []) ∧
    crypt_iv_tcw_ctr cc4096 true = (-eInval, []) :=
  claim_C6_lmk_tcw_sector_size cc4096 true (by norm_num [cc4096, cc512])

/-- Claim C10: preflush and discard bios bypass the entire encryption
pipeline — `crypt_map` redirects them to the underlying device with
the sector translated by the configured start offset when the bio
carries sectors, reports them remapped, and creates no tracking
record, buffer or queued work. -/
theorem claim_C10_bypass_flush_discard :
    ∀ (cc : crypt_config) (ti_begin : Nat) (bio : Bio),
      bio.preflush = true ∨ bio.discard = true →
      crypt_map cc ti_begin bio =
        (.remapped (if bio_sectors bio ≠ 0 then cc.start + (bio.bi_sector - ti_begin)
                    else bio.bi_sector), []) := by
  intro cc ti_begin bio h
  unfold crypt_map
  rcases h with h | h <;> simp [h]

/-- Witness for C10: a concrete discard bio of one 4096-byte sector at
sector 8 of a target starting at device sector 0 with start offset 0
is remapped to sector 8 with no side effects. -/
theorem claim_C10_witness :
    crypt_map cc4096 0
      { preflush := false, discard := true, bi_sector := 8, bi_size := 4096,
        isWrite := false } = (.remapped 8, []) := by
  have h := claim_C10_bypass_flush_discard cc4096 0
    { preflush := false, discard := true, bi_sector := 8, bi_size := 4096,
      isWrite := false } (Or.inr rfl)
  simpa [bio_sectors, SECTOR_SHIFT, cc4096, cc512] using h

theorem crypt_step_preserves_invalid_key (s : key_state) (op : CryptOp)
    (hop : isKeySet op = false) (h : s.key_valid = false) :
    (crypt_step s op).key_valid = false := by
  cases op with
  | postsuspend => simpa [crypt_step, crypt_postsuspend] using h
  | resumeAttempt =>
    simp [crypt_step, crypt_preresume, crypt_resume, h, eAgain]
  | message m =>
    cases m with
    | keySet sizeOk hexOk newKey setkeyRes ivInitRes => simp [isKeySet] at hop
    | keyWipe ivWipeRes randKey setkeyRes =>
      by_cases hsus : s.suspended
      · by_cases hw : s.has_iv_wipe ∧ ivWipeRes ≠ 0
        · simpa [crypt_step, crypt_message, hsus, hw] using h
        · simp [crypt_step, crypt_message, hsus, hw, crypt_wipe_key]
      · simpa [crypt_step, crypt_message, hsus] using h
    | other => simpa [crypt_step, crypt_message] using h

/-- Claim C9: (1) a `key wipe` message is accepted only while the
device is suspended; (2) an accepted wipe clears the key-valid flag
and overwrites the key bytes (random material pushed into the cipher,
then zeroised) rather than merely releasing them; (3) `crypt_preresume`
fails with EAGAIN whenever the key-valid flag is clear; (4) once the
flag is clear it stays clear across any sequence of lifecycle
operations that contains no `key set` message, so every resume attempt
in between fails, and (5) a successful `key set` on a suspended device
re-establishes the flag. -/
theorem claim_C9_key_wipe_blocks_resume :
    (∀ (s : key_state) (ivWipeRes : Int) (randKey : List Nat) (setkeyRes : Int),
      s.suspended = false →
      crypt_message s (.keyWipe ivWipeRes randKey setkeyRes) = (-eInval, s)) ∧
    (∀ (s : key_state) (ivWipeRes : Int) (randKey : List Nat) (setkeyRes : Int),
      s.suspended = true → ¬(s.has_iv_wipe = true ∧ ivWipeRes ≠ 0) →
      (crypt_message s (.keyWipe ivWipeRes randKey setkeyRes)).2.key_valid = false ∧
      (crypt_message s (.keyWipe ivWipeRes randKey setkeyRes)).2.key =
        List.replicate s.key_size 0) ∧
    (∀ s : key_state, s.key_valid = false → crypt_preresume s = -eAgain) ∧
    (∀ (s : key_state) (ops : List CryptOp), s.key_valid = false →
      (∀ op ∈ ops, isKeySet op = false) →
      (crypt_run s ops).key_valid = false ∧
      crypt_preresume (crypt_run s ops) = -eAgain) ∧
    (∀ (s : key_state) (newKey : List Nat), s.suspended = true →
      (crypt_message s (.keySet true true newKey 0 0)).2.key_valid = true) := by
  refine ⟨?_, ?_, ?_, ?_, ?_⟩
  · intro s ivWipeRes randKey setkeyRes hsus
    simp [crypt_message, hsus]
  · intro s ivWipeRes randKey setkeyRes hsus hw
    simp [crypt_message, hsus, hw, crypt_wipe_key]
  · intro s h
    simp [crypt_preresume, h]
  · intro s ops
    induction ops generalizing s with
    | nil => intro h _; exact ⟨h, by simp [crypt_run, crypt_preresume, h]⟩
    | cons op ops ih =>
      intro h hops
      have hstep := crypt_step_preserves_invalid_key s op (hops op (by simp)) h
      have := ih (crypt_step s op) hstep (fun o ho => hops o (by simp [ho]))
      simpa [crypt_run] using this
  · intro s newKey hsus
    simp [crypt_message, hsus, crypt_set_key]

/-- Witness for C9: starting from a concrete suspended state with a
valid key, a wipe message invalidates the key and zeroises it, a
resume attempt then fails with EAGAIN (also after further suspend and
resume attempts), and a successful key set restores validity. -/
theorem claim_C9_witness :
    (crypt_message { ks0 with suspended := false } (.keyWipe 0 [1, 2] 0) =
      (-eInval, { ks0 with suspended := false })) ∧
    (crypt_message ks0 (.keyWipe 0 [1, 2] 0)).2.key_valid = false ∧
    (crypt_message ks0 (.keyWipe 0 [1, 2] 0)).2.key = List.replicate 32 0 ∧
    crypt_preresume { ks0 with key_valid := false } = -eAgain ∧
    (crypt_run { ks0 with key_valid := false }
      [.resumeAttempt, .postsuspend, .resumeAttempt]).key_valid = false ∧
    (crypt_message ks0 (.keySet true true (List.replicate 32 6) 0 0)).2.key_valid = true := by
  obtain ⟨h1, h2, h3, h4, h5⟩ := claim_C9_key_wipe_blocks_resume
  refine ⟨h1 { ks0 with suspended := false } 0 [1, 2] 0 rfl, ?_, ?_, ?_, ?_, ?_⟩
  · exact (h2 ks0 0 [1, 2] 0 rfl (by simp [ks0])).1
  · exact (h2 ks0 0 [1, 2] 0 rfl (by simp [ks0])).2
  · exact h3 { ks0 with key_valid := false } rfl
  · exact (h4 { ks0 with key_valid := false }
      [.resumeAttempt, .postsuspend, .resumeAttempt] rfl (by
        intro op hop
        fin_cases hop <;> rfl)).1
  · exact h5 ks0 (List.replicate 32 6) rfl

theorem write_tree_inorder_length (t : WriteTree) :
    (write_tree_inorder t).length = write_tree_size t := by
  induction t with
  | nil => rfl
  | node l k r ihl ihr => simp [write_tree_inorder, write_tree_size, ihl, ihr]; omega

theorem write_tree_extract_first_none {t : WriteTree}
    (h : write_tree_extract_first t = none) : t = .nil := by
  cases t with
  | nil => rfl
  | node l k r =>
    cases l with
    | nil => simp [write_tree_extract_first] at h
    | node ll lk lr =>
      unfold write_tree_extract_first at h
      cases hrec : write_tree_extract_first (.node ll lk lr) with
      | none => exact absurd (write_tree_extract_first_none hrec) (by simp)
      | some p => rw [hrec] at h; simp at h

theorem write_tree_extract_first_inorder {t t2 : WriteTree} {k : Nat}
    (h : write_tree_extract_first t = some (k, t2)) :
    write_tree_inorder t = k :: write_tree_inorder t2 := by
  induction t generalizing t2 k with
  | nil => simp [write_tree_extract_first] at h
  | node l key r ihl ihr =>
    cases l with
    | nil =>
      simp [write_tree_extract_first] at h
      simp [write_tree_inorder, h.1, h.2]
    | node ll lk lr =>
      unfold write_tree_extract_first at h
      cases hrec : write_tree_extract_first (.node ll lk lr) with
      | none => exact absurd (write_tree_extract_first_none hrec) (by simp)
      | some p =>
        obtain ⟨m, l2⟩ := p
        rw [hrec] at h
        simp at h
        obtain ⟨hk, ht2⟩ := h
        have hl := ihl hrec
        subst hk
        subst ht2
        have hl2 : write_tree_inorder ll ++ lk :: write_tree_inorder lr =
            m :: write_tree_inorder l2 := by simpa [write_tree_inorder] using hl
        show write_tree_inorder (WriteTree.node (WriteTree.node ll lk lr) key r) =
          m :: write_tree_inorder (WriteTree.node l2 key r)
        simp only [write_tree_inorder]
        rw [hl2]
        simp

theorem write_tree_drain_eq_inorder :
    ∀ (fuel : Nat) (t : WriteTree), write_tree_size t ≤ fuel →
      write_tree_drain fuel t = write_tree_inorder t := by
  intro fuel
  induction fuel with
  | zero =>
    intro t ht
    have hsize : write_tree_size t = 0 := Nat.le_zero.1 ht
    have hlen := write_tree_inorder_length t
    rw [hsize] at hlen
    rw [List.length_eq_zero] at hlen
    simp [write_tree_drain, hlen]
  | succ fuel ih =>
    intro t ht
    unfold write_tree_drain
    cases hext : write_tree_extract_first t with
    | none => rw [write_tree_extract_first_none hext]; rfl
    | some p =>
      obtain ⟨k, t2⟩ := p
      have hino := write_tree_extract_first_inorder hext
      have hsize : write_tree_size t2 + 1 = write_tree_size t := by
        have h1 := write_tree_inorder_length t
        have h2 := write_tree_inorder_length t2
        rw [hino] at h1
        simp at h1
        omega
      show k :: write_tree_drain fuel t2 = write_tree_inorder t
      rw [ih t2 (by omega), hino]

theorem write_tree_insert_inorder_perm (t : WriteTree) (s : Nat) :
    List.Perm (write_tree_inorder (write_tree_insert t s)) (s :: write_tree_inorder t) := by
  induction t with
  | nil => simp [write_tree_insert, write_tree_inorder]
  | node l k r ihl ihr =>
    unfold write_tree_insert
    by_cases hlt : s < k
    · rw [if_pos hlt]
      simp only [write_tree_inorder]
      exact ihl.append_right _
    · rw [if_neg hlt]
      simp only [write_tree_inorder]
      have h2 : List.Perm (write_tree_inorder l ++ k :: write_tree_inorder (write_tree_insert r s))
          (write_tree_inorder l ++ k :: s :: write_tree_inorder r) :=
        List.Perm.append_left _ (ihr.cons k)
      have h3 : List.Perm (write_tree_inorder l ++ k :: s :: write_tree_inorder r)
          (s :: (write_tree_inorder l ++ k :: write_tree_inorder r)) := by
        have hmid := @List.perm_middle Nat s (write_tree_inorder l ++ [k])
          (write_tree_inorder r)
        simpa using hmid
      exact h2.trans h3

theorem write_tree_insert_sorted (t : WriteTree) (s : Nat)
    (h : List.Sorted (· ≤ ·) (write_tree_inorder t)) :
    List.Sorted (· ≤ ·) (write_tree_inorder (write_tree_insert t s)) := by
  induction t with
  | nil => simp [write_tree_insert, write_tree_inorder]
  | node l k r ihl ihr =>
    simp only [write_tree_inorder] at h
    rw [List.Sorted, List.pairwise_append] at h
    obtain ⟨hl, hkr, hcross⟩ := h
    rw [List.pairwise_cons] at hkr
    obtain ⟨hkler, hr⟩ := hkr
    unfold write_tree_insert
    by_cases hlt : s < k
    · rw [if_pos hlt]
      simp only [write_tree_inorder]
      rw [List.Sorted, List.pairwise_append]
      refine ⟨ihl hl, ?_, ?_⟩
      · rw [List.pairwise_cons]; exact ⟨hkler, hr⟩
      · intro a ha b hb
        have ha2 : a ∈ s :: write_tree_inorder l :=
          (write_tree_insert_inorder_perm l s).mem_iff.1 ha
        rcases List.mem_cons.1 ha2 with rfl | ha3
        · rcases List.mem_cons.1 hb with rfl | hb2
          · exact Nat.le_of_lt hlt
          · exact le_trans (Nat.le_of_lt hlt) (hkler b hb2)
        · exact hcross a ha3 b hb
    · rw [if_neg hlt]
      simp only [write_tree_inorder]
      rw [List.Sorted, List.pairwise_append]
      refine ⟨hl, ?_, ?_⟩
      · rw [List.pairwise_cons]
        refine ⟨?_, ihr hr⟩
        intro b hb
        have hb2 : b ∈ s :: write_tree_inorder r :=
          (write_tree_insert_inorder_perm r s).mem_iff.1 hb
        rcases List.mem_cons.1 hb2 with rfl | hb3
        · exact Nat.le_of_not_lt hlt
        · exact hkler b hb3
      · intro a ha b hb
        rcases List.mem_cons.1 hb with rfl | hb2
        · exact hcross a ha b (by simp)
        · have hb3 : b ∈ s :: write_tree_inorder r :=
            (write_tree_insert_inorder_perm r s).mem_iff.1 hb2
          rcases List.mem_cons.1 hb3 with rfl | hb4
          · exact le_trans (hcross a ha k (by simp)) (Nat.le_of_not_lt hlt)
          · exact hcross a ha b (by simp [hb4])

theorem write_tree_insert_all_perm (xs : List Nat) :
    List.Perm (write_tree_inorder (write_tree_insert_all xs)) xs := by
  suffices h : ∀ (xs : List Nat) (t : WriteTree),
      List.Perm (write_tree_inorder (xs.foldl write_tree_insert t))
        (xs ++ write_tree_inorder t) by
    simpa [write_tree_insert_all, write_tree_inorder] using h xs .nil
  intro xs
  induction xs with
  | nil => intro t; simp
  | cons x xs ih =>
    intro t
    have h1 := ih (write_tree_insert t x)
    have h2 : List.Perm (xs ++ write_tree_inorder (write_tree_insert t x))
        (xs ++ x :: write_tree_inorder t) :=
      List.Perm.append_left xs (write_tree_insert_inorder_perm t x)
    have h3 : List.Perm (xs ++ x :: write_tree_inorder t) (x :: (xs ++ write_tree_inorder t)) :=
      List.perm_middle
    simpa [List.foldl_cons] using (h1.trans h2).trans h3

theorem write_tree_insert_all_sorted (xs : List Nat) :
    List.Sorted (· ≤ ·) (write_tree_inorder (write_tree_insert_all xs)) := by
  suffices h : ∀ (xs : List Nat) (t : WriteTree),
      List.Sorted (· ≤ ·) (write_tree_inorder t) →
      List.Sorted (· ≤ ·) (write_tree_inorder (xs.foldl write_tree_insert t)) by
    exact h xs .nil (by simp [write_tree_inorder])
  intro xs
  induction xs with
  | nil => intro t ht; simpa using ht
  | cons x xs ih =>
    intro t ht
    simpa [List.foldl_cons] using ih (write_tree_insert t x) (write_tree_insert_sorted t x ht)

/-- Claim C3: for every batch of completed writes inserted into the
write tree in an arbitrary order, the drain loop of the dedicated
write worker submits exactly those writes, in ascending order of
starting sector; in particular every arrival order of the sectors
{5,1,3,2,4} is submitted downstream as [1,2,3,4,5]. -/
theorem claim_C3_write_reordering :
    (∀ xs : List Nat,
      List.Sorted (· ≤ ·) (dmcrypt_write_drain (write_tree_insert_all xs)) ∧
      List.Perm (dmcrypt_write_drain (write_tree_insert_all xs)) xs) ∧
    (∀ xs : List Nat, List.Perm xs [5, 1, 3, 2, 4] →
      dmcrypt_write_drain (write_tree_insert_all xs) = [1, 2, 3, 4, 5]) := by
  have hdrain : ∀ xs : List Nat,
      dmcrypt_write_drain (write_tree_insert_all xs) =
        write_tree_inorder (write_tree_insert_all xs) := by
    intro xs
    exact write_tree_drain_eq_inorder _ _ (le_refl _)
  constructor
  · intro xs
    rw [hdrain]
    exact ⟨write_tree_insert_all_sorted xs, write_tree_insert_all_perm xs⟩
  · intro xs hperm
    rw [hdrain]
    apply List.eq_of_perm_of_sorted
      ((write_tree_insert_all_perm xs).trans (hperm.trans (by decide)))
      (write_tree_insert_all_sorted xs)
    decide

/-- Witness for C3: the scrambled completion order [5,1,3,2,4] itself
is drained as [1,2,3,4,5]. -/
theorem claim_C3_witness :
    dmcrypt_write_drain (write_tree_insert_all [5, 1, 3, 2, 4]) = [1, 2, 3, 4, 5] :=
  claim_C3_write_reordering.2 [5, 1, 3, 2, 4] (List.Perm.refl _)

theorem crypt_convert_block_skcipher_cases (cc : crypt_config) (ctx : convert_context)
    (bvLen : Nat) (ivRes cipherRes postRes : Int) :
    ((crypt_convert_block_skcipher cc ctx bvLen ivRes cipherRes postRes).2 = ctx ∧
      ((crypt_convert_block_skcipher cc ctx bvLen ivRes cipherRes postRes).1 = -eIoError ∨
       ((crypt_convert_block_skcipher cc ctx bvLen ivRes cipherRes postRes).1 = ivRes ∧
         ivRes < 0))) ∨
    (crypt_convert_block_skcipher cc ctx bvLen ivRes cipherRes postRes).2 =
      { ctx with iter_in_size := ctx.iter_in_size - cc.sector_size,
                 iter_out_size := ctx.iter_out_size - cc.sector_size } := by
  unfold crypt_convert_block_skcipher
  by_cases h1 : bvLen &&& (cc.sector_size - 1) ≠ 0
  · rw [if_pos h1]; exact Or.inl ⟨rfl, Or.inl rfl⟩
  · rw [if_neg h1]
    by_cases h2 : iv_gen_called cc ctx = true ∧ ivRes < 0
    · rw [if_pos h2]; exact Or.inl ⟨rfl, Or.inr ⟨rfl, h2.2⟩⟩
    · rw [if_neg h2]; exact Or.inr rfl

theorem crypt_convert_block_aead_cases (cc : crypt_config) (ctx : convert_context)
    (bvLen : Nat) (ivRes cipherRes postRes : Int) :
    ((crypt_convert_block_aead cc ctx bvLen ivRes cipherRes postRes).2 = ctx ∧
      ((crypt_convert_block_aead cc ctx bvLen ivRes cipherRes postRes).1 = -eIoError ∨
       ((crypt_convert_block_aead cc ctx bvLen ivRes cipherRes postRes).1 = ivRes ∧
         ivRes < 0))) ∨
    (crypt_convert_block_aead cc ctx bvLen ivRes cipherRes postRes).2 =
      { ctx with iter_in_size := ctx.iter_in_size - cc.sector_size,
                 iter_out_size := ctx.iter_out_size - cc.sector_size } := by
  unfold crypt_convert_block_aead
  by_cases h1 : bvLen &&& (cc.sector_size - 1) ≠ 0
  · rw [if_pos h1]; exact Or.inl ⟨rfl, Or.inl rfl⟩
  · rw [if_neg h1]
    by_cases h2 : iv_gen_called cc ctx = true ∧ ivRes < 0
    · rw [if_pos h2]; exact Or.inl ⟨rfl, Or.inr ⟨rfl, h2.2⟩⟩
    · rw [if_neg h2]; exact Or.inr rfl

theorem crypt_convert_block_cases (cc : crypt_config) (ctx : convert_context)
    (bvLen : Nat) (ivRes cipherRes postRes : Int) :
    ((crypt_convert_block cc ctx bvLen ivRes cipherRes postRes).2 = ctx ∧
      ((crypt_convert_block cc ctx bvLen ivRes cipherRes postRes).1 = -eIoError ∨
       ((crypt_convert_block cc ctx bvLen ivRes cipherRes postRes).1 = ivRes ∧
         ivRes < 0))) ∨
    (crypt_convert_block cc ctx bvLen ivRes cipherRes postRes).2 =
      { ctx with iter_in_size := ctx.iter_in_size - cc.sector_size,
                 iter_out_size := ctx.iter_out_size - cc.sector_size } := by
  unfold crypt_convert_block
  by_cases h : cc.integrity_aead = true
  · rw [if_pos h]; exact crypt_convert_block_aead_cases cc ctx bvLen ivRes cipherRes postRes
  · rw [if_neg h]; exact crypt_convert_block_skcipher_cases cc ctx bvLen ivRes cipherRes postRes

theorem crypt_convert_block_busy_advances (cc : crypt_config) (ctx : convert_context)
    (bvLen : Nat) (ivRes cipherRes postRes : Int)
    (hiv : ivRes ≠ -eBusy ∧ ivRes ≠ -eInProgress)
    (hres : (crypt_convert_block cc ctx bvLen ivRes cipherRes postRes).1 = -eBusy ∨
      (crypt_convert_block cc ctx bvLen ivRes cipherRes postRes).1 = -eInProgress ∨
      (crypt_convert_block cc ctx bvLen ivRes cipherRes postRes).1 = 0) :
    (crypt_convert_block cc ctx bvLen ivRes cipherRes postRes).2 =
      { ctx with iter_in_size := ctx.iter_in_size - cc.sector_size,
                 iter_out_size := ctx.iter_out_size - cc.sector_size } := by
  rcases crypt_convert_block_cases cc ctx bvLen ivRes cipherRes postRes with ⟨_, hbad⟩ | hadv
  · exfalso
    rcases hbad with hio | ⟨hivr, hneg⟩
    · rcases hres with h | h | h <;> rw [hio] at h <;> simp [eIoError, eBusy, eInProgress] at h
    · rcases hres with h | h | h
      · exact hiv.1 (hivr.symm.trans h)
      · exact hiv.2 (hivr.symm.trans h)
      · rw [hivr] at h; omega
  · exact hadv

theorem asyncCount_nil : asyncCount [] = 0 := rfl

theorem asyncCount_cons (rec : SubRec) (tr : List SubRec) :
    asyncCount (rec :: tr) =
      (if rec.result = -eBusy ∨ rec.result = -eInProgress then 1 else 0) + asyncCount tr := by
  by_cases h : rec.result = -eBusy ∨ rec.result = -eInProgress
  · simp [asyncCount, h, Nat.add_comm]
  · simp [asyncCount, h]

theorem crypt_convert_go_spec (cc : crypt_config) (or : block_oracle) :
    ∀ (fuel : Nat) (ctx : convert_context) (k : Nat),
      (∀ (i : Nat) (rec : SubRec),
        (crypt_convert_go cc or fuel ctx k).2.2[i]? = some rec →
        rec.tag = k + i ∧
        rec.sec = ctx.cc_sector + i * (cc.sector_size >>> SECTOR_SHIFT) ∧
        rec.inSize = ctx.iter_in_size - i * cc.sector_size ∧
        rec.outSize = ctx.iter_out_size - i * cc.sector_size ∧
        (rec.result = -eBusy → rec.waited = true)) ∧
      (crypt_convert_go cc or fuel ctx k).2.1.cc_pending =
        ctx.cc_pending + (asyncCount (crypt_convert_go cc or fuel ctx k).2.2 : Int) := by
  intro fuel
  induction fuel with
  | zero =>
    intro ctx k
    constructor
    · intro i rec h
      simp [crypt_convert_go] at h
    · simp [crypt_convert_go, asyncCount]
  | succ fuel ih =>
    intro ctx k
    by_cases hloop : ctx.iter_in_size ≠ 0 ∧ ctx.iter_out_size ≠ 0
    · constructor
      · intro i rec h
        simp only [crypt_convert_go, if_pos hloop] at h
        split at h
        next hbusy =>
          have hadv := crypt_convert_block_busy_advances cc
            { ctx with req_attached := true, cc_pending := ctx.cc_pending + 1 }
            (or.bvLen k) (or.ivRes k) (or.cipherRes k) (or.postRes k) (or.iv_sync k)
            (by tauto)
          rw [hadv] at h
          cases i with
          | zero =>
            simp only [List.getElem?_cons_zero, Option.some.injEq] at h
            subst h
            refine ⟨by simp, by simp, by simp, by simp, ?_⟩
            intro hr
            simpa using hr
          | succ i =>
            simp only [List.getElem?_cons_succ] at h
            obtain ⟨ht, hs, hin, hout, hw⟩ := (ih _ (k + 1)).1 i rec h
            refine ⟨by omega, ?_, ?_, ?_, hw⟩
            · have harith : ctx.cc_sector + (i + 1) * (cc.sector_size >>> SECTOR_SHIFT) =
                  ctx.cc_sector + (cc.sector_size >>> SECTOR_SHIFT) +
                    i * (cc.sector_size >>> SECTOR_SHIFT) := by ring
              rw [harith]
              exact hs
            · have harith : ctx.iter_in_size - (i + 1) * cc.sector_size =
                  ctx.iter_in_size - cc.sector_size - i * cc.sector_size := by
                rw [Nat.succ_mul, Nat.sub_sub, Nat.add_comm (i * cc.sector_size) cc.sector_size]
              rw [harith]
              exact hin
            · have harith : ctx.iter_out_size - (i + 1) * cc.sector_size =
                  ctx.iter_out_size - cc.sector_size - i * cc.sector_size := by
                rw [Nat.succ_mul, Nat.sub_sub, Nat.add_comm (i * cc.sector_size) cc.sector_size]
              rw [harith]
              exact hout
        next hbusy =>
        split at h
        next hzero =>
          have hadv := crypt_convert_block_busy_advances cc
            { ctx with req_attached := true, cc_pending := ctx.cc_pending + 1 }
            (or.bvLen k) (or.ivRes k) (or.cipherRes k) (or.postRes k) (or.iv_sync k)
            (by tauto)
          rw [hadv] at h
          cases i with
          | zero =>
            simp only [List.getElem?_cons_zero, Option.some.injEq] at h
            subst h
            refine ⟨by simp, by simp, by simp, by simp, ?_⟩
            intro hr
            exact absurd (hr.symm.trans hzero) (by norm_num [eBusy])
          | succ i =>
            simp only [List.getElem?_cons_succ] at h
            obtain ⟨ht, hs, hin, hout, hw⟩ := (ih _ (k + 1)).1 i rec h
            refine ⟨by omega, ?_, ?_, ?_, hw⟩
            · have harith : ctx.cc_sector + (i + 1) * (cc.sector_size >>> SECTOR_SHIFT) =
                  ctx.cc_sector + (cc.sector_size >>> SECTOR_SHIFT) +
                    i * (cc.sector_size >>> SECTOR_SHIFT) := by ring
              rw [harith]
              exact hs
            · have harith : ctx.iter_in_size - (i + 1) * cc.sector_size =
                  ctx.iter_in_size - cc.sector_size - i * cc.sector_size := by
                rw [Nat.succ_mul, Nat.sub_sub, Nat.add_comm (i * cc.sector_size) cc.sector_size]
              rw [harith]
              exact hin
            · have harith : ctx.iter_out_size - (i + 1) * cc.sector_size =
                  ctx.iter_out_size - cc.sector_size - i * cc.sector_size := by
                rw [Nat.succ_mul, Nat.sub_sub, Nat.add_comm (i * cc.sector_size) cc.sector_size]
              rw [harith]
              exact hout
        next hzero =>
        split at h
        next hbad =>
          cases i with
          | zero =>
            simp only [List.getElem?_cons_zero, Option.some.injEq] at h
            subst h
            refine ⟨by simp, by simp, by simp, by simp, ?_⟩
            intro hr
            exact absurd (hr.symm.trans hbad) (by norm_num [eBusy, eBadMsg])
          | succ i => simp at h
        next hbad =>
          cases i with
          | zero =>
            simp only [List.getElem?_cons_zero, Option.some.injEq] at h
            subst h
            refine ⟨by simp, by simp, by simp, by simp, ?_⟩
            intro hr
            exact absurd (Or.inl hr) hbusy
          | succ i => simp at h
      · simp only [crypt_convert_go, if_pos hloop]
        split
        next hbusy =>
          have hadv := crypt_convert_block_busy_advances cc
            { ctx with req_attached := true, cc_pending := ctx.cc_pending + 1 }
            (or.bvLen k) (or.ivRes k) (or.cipherRes k) (or.postRes k) (or.iv_sync k)
            (by tauto)
          rw [hadv]
          dsimp only
          rw [(ih _ (k + 1)).2, asyncCount_cons]
          dsimp only
          rw [if_pos hbusy]
          push_cast
          omega
        next hbusy =>
        split
        next hzero =>
          have hadv := crypt_convert_block_busy_advances cc
            { ctx with req_attached := true, cc_pending := ctx.cc_pending + 1 }
            (or.bvLen k) (or.ivRes k) (or.cipherRes k) (or.postRes k) (or.iv_sync k)
            (by tauto)
          rw [hadv]
          dsimp only
          rw [(ih _ (k + 1)).2, asyncCount_cons]
          dsimp only
          rw [hzero, if_neg (by norm_num [eBusy, eInProgress] :
            ¬((0 : Int) = -eBusy ∨ (0 : Int) = -eInProgress))]
          push_cast
          omega
        next hzero =>
        split
        next hbad =>
          rcases crypt_convert_block_cases cc
            { ctx with req_attached := true, cc_pending := ctx.cc_pending + 1 }
            (or.bvLen k) (or.ivRes k) (or.cipherRes k) (or.postRes k) with ⟨heq, _⟩ | hadv
          · rw [heq]
            dsimp only
            rw [asyncCount_cons, asyncCount_nil]
            dsimp only
            rw [hbad, if_neg (by norm_num [eBusy, eBadMsg, eInProgress] :
              ¬((-eBadMsg : Int) = -eBusy ∨ (-eBadMsg : Int) = -eInProgress))]
            push_cast
            omega
          · rw [hadv]
            dsimp only
            rw [asyncCount_cons, asyncCount_nil]
            dsimp only
            rw [hbad, if_neg (by norm_num [eBusy, eBadMsg, eInProgress] :
              ¬((-eBadMsg : Int) = -eBusy ∨ (-eBadMsg : Int) = -eInProgress))]
            push_cast
            omega
        next hbad =>
          rcases crypt_convert_block_cases cc
            { ctx with req_attached := true, cc_pending := ctx.cc_pending + 1 }
            (or.bvLen k) (or.ivRes k) (or.cipherRes k) (or.postRes k) with ⟨heq, _⟩ | hadv
          · rw [heq]
            dsimp only
            rw [asyncCount_cons, asyncCount_nil]
            dsimp only
            rw [if_neg hbusy]
            push_cast
            omega
          · rw [hadv]
            dsimp only
            rw [asyncCount_cons, asyncCount_nil]
            dsimp only
            rw [if_neg hbusy]
            push_cast
            omega
    · constructor
      · intro i rec h
        simp only [crypt_convert_go, if_neg hloop] at h
        simp at h
      · simp only [crypt_convert_go, if_neg hloop]
        simp [asyncCount]

/-- Counterexample to claim C1 as stated: with a single-sector request
whose only cipher submission is backlogged (EBUSY), the loop waits for
the backlog-drain signal but performs no retry — the trace holds
exactly one submission, and the sector cursor, tag offset and data
cursors all advance past the busy submission (there is no later
submission holding the same values, as the claim requires). -/
theorem claim_C1_counterexample :
    (crypt_convert cc512 (oracle512 (fun _ => -eBusy)) (ctx512 1)).2.2 =
      [{ sec := 0, tag := 0, inSize := 512, outSize := 512,
         result := -eBusy, waited := true }] ∧
    (crypt_convert cc512 (oracle512 (fun _ => -eBusy)) (ctx512 1)).2.1.cc_sector = 1 ∧
    (crypt_convert cc512 (oracle512 (fun _ => -eBusy)) (ctx512 1)).2.1.iter_in_size = 0 ∧
    (crypt_convert cc512 (oracle512 (fun _ => -eBusy)) (ctx512 1)).2.1.iter_out_size = 0 := by
  decide

/-- Claim C1 as amended: when a cipher submission returns the busy
status the loop does suspend until the backlog-drain signal (which
`kcryptd_async_done` raises when called back with -EINPROGRESS,
without touching the pending count), but it then continues exactly as
for an asynchronously accepted request instead of retrying: no later
submission reuses the busy submission's tag offset, and the very next
submission (when one exists) runs with the sector cursor, tag offset
and data cursors advanced by exactly one sector-group. -/
theorem claim_C1_busy_suspends_then_advances :
    ∀ (cc : crypt_config) (or : block_oracle) (ctx : convert_context) (i : Nat)
      (rec : SubRec),
      (crypt_convert cc or ctx).2.2[i]? = some rec →
      rec.result = -eBusy →
      rec.waited = true ∧
      kcryptd_async_done cc (-eInProgress) 0 =
        { completed_restart := true, dec_pending := false, set_error := none } ∧
      (∀ (j : Nat) (rec2 : SubRec), (crypt_convert cc or ctx).2.2[j]? = some rec2 →
        j ≠ i → rec2.tag ≠ rec.tag) ∧
      (∀ rec2 : SubRec, (crypt_convert cc or ctx).2.2[i + 1]? = some rec2 →
        rec2.tag = rec.tag + 1 ∧
        rec2.sec = rec.sec + (cc.sector_size >>> SECTOR_SHIFT) ∧
        rec2.inSize = rec.inSize - cc.sector_size ∧
        rec2.outSize = rec.outSize - cc.sector_size) := by
  intro cc or ctx i rec h hres
  have hspec := (crypt_convert_go_spec cc or ctx.iter_in_size
    { ctx with cc_pending := 1 } 0).1
  obtain ⟨ht, hs, hin, hout, hw⟩ := hspec i rec h
  dsimp only at ht hs hin hout
  refine ⟨hw hres, by simp [kcryptd_async_done], ?_, ?_⟩
  · intro j rec2 h2 hij
    have ht2 := (hspec j rec2 h2).1
    omega
  · intro rec2 h2
    obtain ⟨ht2, hs2, hin2, hout2, _⟩ := hspec (i + 1) rec2 h2
    dsimp only at ht2 hs2 hin2 hout2
    refine ⟨by omega, ?_, ?_, ?_⟩
    · rw [hs, hs2]; ring
    · rw [hin, hin2, Nat.succ_mul, ← Nat.sub_sub]
    · rw [hout, hout2, Nat.succ_mul, ← Nat.sub_sub]

/-- Witness for the amended C1: in a two-sector run whose first
submission is busy and second succeeds, the first trace entry is the
busy submission, and applying the theorem to it yields the wait flag
and the advanced successor. -/
theorem claim_C1_witness :
    (crypt_convert cc512 (oracle512 (fun j => if j = 0 then -eBusy else 0))
      (ctx512 2)).2.2[0]? =
      some { sec := 0, tag := 0, inSize := 1024, outSize := 1024,
             result := -eBusy, waited := true } ∧
    ({ sec := 0, tag := 0, inSize := 1024, outSize := 1024,
       result := -eBusy, waited := true } : SubRec).waited = true ∧
    (∀ rec2 : SubRec,
      (crypt_convert cc512 (oracle512 (fun j => if j = 0 then -eBusy else 0))
        (ctx512 2)).2.2[0 + 1]? = some rec2 →
      rec2.tag = 0 + 1 ∧ rec2.sec = 0 + (cc512.sector_size >>> SECTOR_SHIFT) ∧
      rec2.inSize = 1024 - cc512.sector_size ∧ rec2.outSize = 1024 - cc512.sector_size) := by
  have happ := claim_C1_busy_suspends_then_advances cc512
    (oracle512 (fun j => if j = 0 then -eBusy else 0)) (ctx512 2) 0
    { sec := 0, tag := 0, inSize := 1024, outSize := 1024,
      result := -eBusy, waited := true } (by decide) rfl
  exact ⟨by decide, happ.1, happ.2.2.2⟩

/-- Counterexample to claim C2 as stated: a block conversion call that
rejects an unaligned input bio vector (length 100 against a 512-byte
sector) returns the I/O error without advancing either data cursor,
so the cursors are not advanced on every call. -/
theorem claim_C2_counterexample :
    (crypt_convert_block_skcipher cc512 (ctx512 1) 100 0 0 0).1 = -eIoError ∧
    (crypt_convert_block_skcipher cc512 (ctx512 1) 100 0 0 0).2.iter_in_size = 512 ∧
    (crypt_convert_block_skcipher cc512 (ctx512 1) 100 0 0 0).2.iter_out_size = 512 ∧
    (ctx512 1).iter_in_size - cc512.sector_size = 0 := by
  decide

/-- Claim C2 as amended: on every call whose input bio vector is
sector-aligned and whose IV generation does not fail, both block
conversion routines advance the Conversion Context's input and output
cursors by exactly one sector-group before returning, whatever the
cipher result (synchronous success, EBUSY, EINPROGRESS, EBADMSG or any
other failure); the two remaining early-return paths (unaligned bio
vector, IV generator failure) return without touching the cursors. -/
theorem claim_C2_cursors_advance :
    ∀ (cc : crypt_config) (ctx : convert_context) (bvLen : Nat)
      (ivRes cipherRes postRes : Int),
      bvLen &&& (cc.sector_size - 1) = 0 →
      (iv_gen_called cc ctx = true → 0 ≤ ivRes) →
      ((crypt_convert_block_skcipher cc ctx bvLen ivRes cipherRes postRes).2.iter_in_size =
          ctx.iter_in_size - cc.sector_size ∧
        (crypt_convert_block_skcipher cc ctx bvLen ivRes cipherRes postRes).2.iter_out_size =
          ctx.iter_out_size - cc.sector_size) ∧
      ((crypt_convert_block_aead cc ctx bvLen ivRes cipherRes postRes).2.iter_in_size =
          ctx.iter_in_size - cc.sector_size ∧
        (crypt_convert_block_aead cc ctx bvLen ivRes cipherRes postRes).2.iter_out_size =
          ctx.iter_out_size - cc.sector_size) := by
  intro cc ctx bvLen ivRes cipherRes postRes halign hiv
  have hcond : ¬(iv_gen_called cc ctx = true ∧ ivRes < 0) := by
    rintro ⟨hg, hlt⟩
    have := hiv hg
    omega
  constructor
  · unfold crypt_convert_block_skcipher
    rw [if_neg (by simp [halign]), if_neg hcond]
    exact ⟨rfl, rfl⟩
  · unfold crypt_convert_block_aead
    rw [if_neg (by simp [halign]), if_neg hcond]
    exact ⟨rfl, rfl⟩

/-- Witness for the amended C2: with 512-byte sectors, an aligned
512-byte bio vector and a busy cipher, both cursors advance from 512
to 0 in both block conversion routines. -/
theorem claim_C2_witness :
    ((crypt_convert_block_skcipher cc512 (ctx512 1) 512 0 (-eBusy) 0).2.iter_in_size =
        (ctx512 1).iter_in_size - cc512.sector_size ∧
      (crypt_convert_block_skcipher cc512 (ctx512 1) 512 0 (-eBusy) 0).2.iter_out_size =
        (ctx512 1).iter_out_size - cc512.sector_size) ∧
    ((crypt_convert_block_aead cc512 (ctx512 1) 512 0 (-eBusy) 0).2.iter_in_size =
        (ctx512 1).iter_in_size - cc512.sector_size ∧
      (crypt_convert_block_aead cc512 (ctx512 1) 512 0 (-eBusy) 0).2.iter_out_size =
        (ctx512 1).iter_out_size - cc512.sector_size) :=
  claim_C2_cursors_advance cc512 (ctx512 1) 512 0 (-eBusy) 0 (by decide) (by decide)

theorem ccevent_length_partition (es : List CCEvent) :
    (es.filter (· = CCEvent.incSubmit)).length +
      (es.filter (· = CCEvent.decComplete)).length +
      (es.filter (· = CCEvent.decSeed)).length = es.length := by
  induction es with
  | nil => rfl
  | cons e es ih => cases e <;> simp [List.filter_cons] <;> omega

theorem ccevent_filter_take_le (p : CCEvent → Bool) (es : List CCEvent) (k : Nat) :
    ((es.take k).filter p).length ≤ (es.filter p).length := by
  conv_rhs => rw [← List.take_append_drop k es]
  rw [List.filter_append, List.length_append]
  omega

/-- Claim C7: (a) in every run of the conversion loop the pending
counter is seeded at 1, incremented once per submission and
decremented once per synchronous completion, so on return it equals
1 plus the number of submissions accepted asynchronously (whose
decrements are performed later by `kcryptd_async_done`); and (b) for
every interleaving of the counter events permitted by the code — each
submission incremented before its completion decrement, the seed
decrement performed once after the submission loop — the counter
reaches zero exactly at the last event, so the completion action runs
exactly once, on whichever path observes zero last. -/
theorem claim_C7_pending_counter :
    (∀ (cc : crypt_config) (or : block_oracle) (ctx : convert_context),
      (crypt_convert cc or ctx).2.1.cc_pending =
        1 + (asyncCount (crypt_convert cc or ctx).2.2 : Int)) ∧
    (∀ (n : Nat) (es : List CCEvent), ValidSchedule n es →
      ccPending es = 0 ∧ ∀ k, k < es.length → 0 < ccPending (es.take k)) := by
  constructor
  · intro cc or ctx
    have h := (crypt_convert_go_spec cc or ctx.iter_in_size { ctx with cc_pending := 1 } 0).2
    dsimp only at h
    exact h
  · rintro n es ⟨hinc, hdec, hseed, hmatch, hlast⟩
    constructor
    · unfold ccPending
      rw [hinc, hdec, hseed]
      push_cast
      ring
    · intro k hk
      by_contra hle
      push_neg at hle
      have hmk := hmatch k
      have hc1 : ((es.take k).filter (· = CCEvent.decSeed)).length ≤ 1 := by
        have := ccevent_filter_take_le (· = CCEvent.decSeed) es k
        omega
      unfold ccPending at hle
      have hC : ((es.take k).filter (· = CCEvent.decSeed)).length = 1 := by omega
      have hmem : CCEvent.decSeed ∈ es.take k := by
        have hpos : 0 < ((es.take k).filter (· = CCEvent.decSeed)).length := by omega
        obtain ⟨x, hx⟩ := List.exists_mem_of_ne_nil _ (List.ne_nil_of_length_pos hpos)
        have hx2 := List.mem_filter.1 hx
        have : x = CCEvent.decSeed := by simpa using hx2.2
        rw [← this]
        exact hx2.1
      have hA : ((es.take k).filter (· = CCEvent.incSubmit)).length = n := hlast k hmem
      have hB : ((es.take k).filter (· = CCEvent.decComplete)).length = n := by omega
      have hlenp := ccevent_length_partition (es.take k)
      have hlen := ccevent_length_partition es
      have hklen : (es.take k).length = k := by
        rw [List.length_take]
        omega
      omega

/-- Witness for C7: a one-sector run whose submission is accepted
asynchronously returns with the counter at 2 = 1 + 1, and the concrete
schedule [incSubmit, decSeed, decComplete] (submission, loop caller
drops the seed, async callback completes last) reaches zero exactly at
its last event. -/
theorem claim_C7_witness :
    (crypt_convert cc512 (oracle512 (fun _ => -eInProgress)) (ctx512 1)).2.1.cc_pending =
      1 + (asyncCount
        (crypt_convert cc512 (oracle512 (fun _ => -eInProgress)) (ctx512 1)).2.2 : Int) ∧
    ccPending [CCEvent.incSubmit, CCEvent.decSeed, CCEvent.decComplete] = 0 ∧
    (∀ k, k < 3 →
      0 < ccPending ([CCEvent.incSubmit, CCEvent.decSeed, CCEvent.decComplete].take k)) := by
  have hvalid : ValidSchedule 1 [CCEvent.incSubmit, CCEvent.decSeed, CCEvent.decComplete] := by
    refine ⟨by decide, by decide, by decide, ?_, ?_⟩
    · intro k
      match k with
      | 0 => decide
      | 1 => decide
      | 2 => decide
      | (k + 3) =>
        rw [List.take_of_length_le (by simp)]
        decide
    · intro k hk
      match k with
      | 0 => simp at hk
      | 1 => simp at hk
      | 2 => revert hk; decide
      | (k + 3) =>
        rw [List.take_of_length_le (by simp)] at hk ⊢
        decide
  have h2 := claim_C7_pending_counter.2 1 _ hvalid
  exact ⟨claim_C7_pending_counter.1 cc512 (oracle512 (fun _ => -eInProgress)) (ctx512 1),
    h2.1, fun k hk => h2.2 k (by simpa using hk)⟩

/-- Counterexample to claim C8 as stated: a discard bio whose starting
sector 1 is not aligned to the 4096-byte sector size is not killed —
it takes the bypass path and is remapped to the underlying device. -/
theorem claim_C8_counterexample :
    (crypt_map cc4096 0
      { preflush := false, discard := true, bi_sector := 1, bi_size := 4096,
        isWrite := true }).1 = .remapped 1 ∧
    (1 : Nat) &&& ((cc4096.sector_size >>> SECTOR_SHIFT) - 1) ≠ 0 ∧
    (crypt_map cc4096 0
      { preflush := false, discard := true, bi_sector := 1, bi_size := 4096,
        isWrite := true }).1 ≠ .kill := by
  decide

/-- Claim C8 as amended: for every bio that is not a preflush and not a
discard (those bypass the checks entirely), a starting sector or byte
length that is not a multiple of the configured sector size makes
`crypt_map` return the kill disposition before creating any state: no
tracking record is initialised, no tag buffer is allocated, and no
work is queued (at most the dm core has been asked to split an
oversized bio). -/
theorem claim_C8_misaligned_killed :
    ∀ (cc : crypt_config) (ti_begin : Nat) (bio : Bio),
      bio.preflush = false → bio.discard = false →
      (∃ m, cc.sector_size = 2 ^ m ∧ 9 ≤ m) →
      (bio.bi_sector % (cc.sector_size >>> SECTOR_SHIFT) ≠ 0 ∨
        bio.bi_size % cc.sector_size ≠ 0) →
      (crypt_map cc ti_begin bio).1 = .kill ∧
      MapEvent.ioInit ∉ (crypt_map cc ti_begin bio).2 ∧
      MapEvent.allocTag ∉ (crypt_map cc ti_begin bio).2 ∧
      MapEvent.queueRead ∉ (crypt_map cc ti_begin bio).2 ∧
      MapEvent.queueCrypt ∉ (crypt_map cc ti_begin bio).2 := by
  rintro cc ti_begin bio hp hd ⟨m, hss, hm9⟩ hmis
  have hshift : cc.sector_size >>> SECTOR_SHIFT = 2 ^ (m - 9) := by
    rw [hss, Nat.shiftRight_eq_div_pow, SECTOR_SHIFT, Nat.pow_div hm9 (by norm_num)]
  have hmask1 : bio.bi_sector &&& ((cc.sector_size >>> SECTOR_SHIFT) - 1) =
      bio.bi_sector % (cc.sector_size >>> SECTOR_SHIFT) := by
    rw [hshift, Nat.and_pow_two_sub_one_eq_mod]
  have hmask2 : bio.bi_size &&& (cc.sector_size - 1) =
      bio.bi_size % cc.sector_size := by
    rw [hss, Nat.and_pow_two_sub_one_eq_mod]
  unfold crypt_map
  rw [if_neg (by simp [hp, hd])]
  by_cases h1 : bio.bi_sector &&& ((cc.sector_size >>> SECTOR_SHIFT) - 1) ≠ 0
  · rw [if_pos h1]
    refine ⟨rfl, ?_, ?_, ?_, ?_⟩ <;> split <;> simp
  · rw [if_neg h1]
    have h2 : bio.bi_size &&& (cc.sector_size - 1) ≠ 0 := by
      push_neg at h1
      rcases hmis with hA | hB
      · rw [hmask1] at h1
        exact absurd h1 hA
      · rw [hmask2]
        exact hB
    rw [if_pos h2]
    refine ⟨rfl, ?_, ?_, ?_, ?_⟩ <;> split <;> simp

/-- Witness for the amended C8: a plain write bio with starting sector
1 (misaligned against 4096-byte sectors) is killed with no state
creation events. -/
theorem claim_C8_witness :
    (crypt_map cc4096 0
      { preflush := false, discard := false, bi_sector := 1, bi_size := 4096,
        isWrite := true }).1 = .kill ∧
    MapEvent.ioInit ∉ (crypt_map cc4096 0
      { preflush := false, discard := false, bi_sector := 1, bi_size := 4096,
        isWrite := true }).2 :=
  have h := claim_C8_misaligned_killed cc4096 0
    { preflush := false, discard := false, bi_sector := 1, bi_size := 4096,
      isWrite := true } rfl rfl ⟨12, by norm_num [cc4096, cc512], by norm_num⟩
    (Or.inl (by decide))
  ⟨h.1, h.2.1⟩

end DmCrypt
